import Mathlib

/-!
Verification development for the webnative-cas repository: a shallow
embedding in Lean 4 of the ZIP-ingest / content-addressable-store server
(`src/zip/upload_zip.ts` as reproduced in the repository sources,
`src/zip/zip_stream.ts`, `src/zip/central_directory.ts`, `src/store/cas.ts`,
`src/server.ts`), together with theorems settling the specification's
claims about it.

Bytes are modelled as `Nat` (values `< 256` in well-formed data), byte
buffers as `List Nat`, and JavaScript 32-bit integer arithmetic as `Nat`
computations truncated to 32 bits where the source truncates.
-/

namespace WebnativeCas

/-! ## Byte-buffer primitives

`Buffer` reads of the Node.js sources.  `byteAt` models reading one byte of
a buffer; indices beyond the end read `0`, matching the zero-filled
`Buffer.alloc` targets the sources read into. -/

def byteAt (data : List Nat) (i : Nat) : Nat := data.getD i 0

/-- Models `buf.readUInt16LE(off)`. -/
def readU16LE (data : List Nat) (off : Nat) : Nat :=
  byteAt data off + 256 * byteAt data (off + 1)

/-- Models `buf.readUInt32LE(off)`. -/
def readU32LE (data : List Nat) (off : Nat) : Nat :=
  byteAt data off + 256 * byteAt data (off + 1) + 65536 * byteAt data (off + 2) +
    16777216 * byteAt data (off + 3)

/-- Models `buf.readBigUInt64LE(off)`. -/
def readU64LE (data : List Nat) (off : Nat) : Nat :=
  readU32LE data off + 4294967296 * readU32LE data (off + 4)

/-- A length-`len` slice starting at `start`, zero-filled past the end of
`data` (models `fh.read` into a `Buffer.alloc(len)` target). -/
def sliceZ (data : List Nat) (start len : Nat) : List Nat :=
  (List.range len).map (fun i => byteAt data (start + i))

/-- A slice clipped (not zero-filled) at the end of `data`; models
`createReadStream(path, { start, end })`, which simply ends at EOF. -/
def sliceClip (data : List Nat) (start len : Nat) : List Nat :=
  (data.drop start).take len

/-! ## JavaScript string primitives

Structural char-list models of the JavaScript string methods the sources
use: `split` on a one-character separator, `startsWith`, `endsWith`,
`trim`, and substring `includes`. -/

/-- Models `s.split(sep)` for a one-character separator. -/
def splitChar (sep : Char) : List Char → List (List Char)
  | [] => [[]]
  | c :: rest =>
      match splitChar sep rest with
      | [] => [[c]]
      | h :: t => if c = sep then [] :: h :: t else (c :: h) :: t

def jsSplit (sep : Char) (s : String) : List String :=
  (splitChar sep s.data).map String.mk

def jsStartsWith (s pre : String) : Bool := pre.data.isPrefixOf s.data

def jsEndsWith (s suf : String) : Bool := suf.data.reverse.isPrefixOf s.data.reverse

/-- Models `s.trim()`: whitespace stripped from both ends. -/
def jsTrim (s : String) : String :=
  String.mk (((s.data.dropWhile Char.isWhitespace).reverse.dropWhile
    Char.isWhitespace).reverse)

/-- Does `sub` occur as a contiguous substring? -/
def listInfix (sub : List Char) : List Char → Bool
  | [] => sub.isEmpty
  | c :: rest => sub.isPrefixOf (c :: rest) || listInfix sub rest

/-- Models `s.includes(sub)`. -/
def jsIncludes (s sub : String) : Bool := listInfix sub.data s.data

/-! ## 32-bit bitwise arithmetic

JavaScript bitwise operators work on 32-bit bit patterns.  We model the
bit patterns as `Nat < 2^32` and define exclusive-or by structural
recursion on a 32-step fuel so that all proofs and evaluations stay in
plain `Nat` arithmetic. -/

/-- Bitwise exclusive-or of the low `n` bits of `a` and `b`. -/
def xorN : Nat → Nat → Nat → Nat
  | 0, _, _ => 0
  | n + 1, a, b => (if a % 2 ≠ b % 2 then 1 else 0) + 2 * xorN n (a / 2) (b / 2)

/-- JavaScript `a ^ b` read as an unsigned 32-bit bit pattern. -/
def xor32 (a b : Nat) : Nat := xorN 32 a b

/-! ## CRC-32 (`crc32Update` of `upload_zip.ts`)

```js
const CRC32_TABLE = (() => {
  const table = new Uint32Array(256);
  for (let i = 0; i < 256; i++) {
    let c = i;
    for (let k = 0; k < 8; k++) c = (c & 1) ? (0xEDB88320 ^ (c >>> 1)) : (c >>> 1);
    table[i] = c >>> 0;
  }
  return table;
})();

function crc32Update(crc, buf) {
  crc = crc ^ 0xFFFFFFFF;
  for (let i = 0; i < buf.length; i++) crc = CRC32_TABLE[(crc ^ buf[i]) & 0xFF] ^ (crc >>> 8);
  return (crc ^ 0xFFFFFFFF) >>> 0;
}
```
-/

def crcStep (c : Nat) : Nat :=
  if c % 2 = 1 then xor32 0xEDB88320 (c / 2) else c / 2

def crcTableEntry (i : Nat) : Nat := crcStep^[8] i

def CRC32_TABLE : List Nat := (List.range 256).map crcTableEntry

/-- One byte of the CRC inner loop:
`crc = CRC32_TABLE[(crc ^ buf[i]) & 0xFF] ^ (crc >>> 8)`. -/
def crc32Byte (crc b : Nat) : Nat :=
  xor32 (CRC32_TABLE.getD (xor32 crc b % 256) 0) (crc / 256)

def crc32Update (crc : Nat) (buf : List Nat) : Nat :=
  xor32 (buf.foldl crc32Byte (xor32 crc 0xFFFFFFFF)) 0xFFFFFFFF

/-! ## SHA-256

The sources hash with `node:crypto`'s `createHash('sha256')`.  Modelled
from the spec: SHA-256 exactly as in FIPS 180-4 (the algorithm
`node:crypto` implements), over byte lists, producing a lowercase-hex
digest string. -/

def rotr32 (n x : Nat) : Nat := x / 2 ^ n + x % 2 ^ n * 2 ^ (32 - n)

def add32 (a b : Nat) : Nat := (a + b) % 4294967296

def sha256K : List Nat :=
  [1116352408, 1899447441, 3049323471, 3921009573, 961987163, 1508970993,
   2453635748, 2870763221, 3624381080, 310598401, 607225278, 1426881987,
   1925078388, 2162078206, 2614888103, 3248222580, 3835390401, 4022224774,
   264347078, 604807628, 770255983, 1249150122, 1555081692, 1996064986,
   2554220882, 2821834349, 2952996808, 3210313671, 3336571891, 3584528711,
   113926993, 338241895, 666307205, 773529912, 1294757372, 1396182291,
   1695183700, 1986661051, 2177026350, 2456956037, 2730485921, 2820302411,
   3259730800, 3345764771, 3516065817, 3600352804, 4094571909, 275423344,
   430227734, 506948616, 659060556, 883997877, 958139571, 1322822218,
   1537002063, 1747873779, 1955562222, 2024104815, 2227730452, 2361852424,
   2428436474, 2756734187, 3204031479, 3329325298]

def sha256H0 : List Nat :=
  [1779033703, 3144134277, 1013904242, 2773480762,
   1359893119, 2600822924, 528734635, 1541459225]

/-- Big-endian bytes of a 64-bit value. -/
def toBytesBE64 (n : Nat) : List Nat :=
  [n / 2 ^ 56 % 256, n / 2 ^ 48 % 256, n / 2 ^ 40 % 256, n / 2 ^ 32 % 256,
   n / 2 ^ 24 % 256, n / 2 ^ 16 % 256, n / 2 ^ 8 % 256, n % 256]

/-- SHA-256 padding: `0x80`, zeros to 56 mod 64, then the bit length. -/
def sha256Pad (msg : List Nat) : List Nat :=
  msg ++ [0x80] ++ List.replicate ((120 - (msg.length + 1) % 64) % 64) 0 ++
    toBytesBE64 (8 * msg.length)

/-- Big-endian 32-bit words from bytes (length a multiple of 4). -/
def wordsBE : List Nat → List Nat
  | b0 :: b1 :: b2 :: b3 :: rest =>
      (((b0 * 256 + b1) * 256 + b2) * 256 + b3) :: wordsBE rest
  | _ => []

/-- Split into 64-byte blocks. -/
def chunks64 : Nat → List Nat → List (List Nat)
  | 0, _ => []
  | _, [] => []
  | fuel + 1, l => l.take 64 :: chunks64 fuel (l.drop 64)

def smallSigma0 (x : Nat) : Nat := xor32 (xor32 (rotr32 7 x) (rotr32 18 x)) (x / 2 ^ 3)

def smallSigma1 (x : Nat) : Nat := xor32 (xor32 (rotr32 17 x) (rotr32 19 x)) (x / 2 ^ 10)

def bigSigma0 (x : Nat) : Nat := xor32 (xor32 (rotr32 2 x) (rotr32 13 x)) (rotr32 22 x)

def bigSigma1 (x : Nat) : Nat := xor32 (xor32 (rotr32 6 x) (rotr32 11 x)) (rotr32 25 x)

/-- Message-schedule extension: append words 16..63. -/
def extendW : Nat → List Nat → List Nat
  | 0, w => w
  | k + 1, w =>
      let i := w.length
      let wNew := add32 (add32 (w.getD (i - 16) 0) (smallSigma0 (w.getD (i - 15) 0)))
        (add32 (w.getD (i - 7) 0) (smallSigma1 (w.getD (i - 2) 0)))
      extendW k (w ++ [wNew])

/-- Models `ch(e,f,g) = (e and f) xor ((not e) and g)`, via bit recursion. -/
def chN : Nat → Nat → Nat → Nat → Nat
  | 0, _, _, _ => 0
  | n + 1, e, f, g =>
      (if e % 2 = 1 then f % 2 else g % 2) + 2 * chN n (e / 2) (f / 2) (g / 2)

/-- Models `maj(a,b,c)`: the majority of the three bits at each position. -/
def majN : Nat → Nat → Nat → Nat → Nat
  | 0, _, _, _ => 0
  | n + 1, a, b, c =>
      (if 2 ≤ a % 2 + b % 2 + c % 2 then 1 else 0) + 2 * majN n (a / 2) (b / 2) (c / 2)

/-- One SHA-256 round on the eight-word working state. -/
def sha256Round (st : List Nat) (kw : Nat × Nat) : List Nat :=
  match st with
  | [a, b, c, d, e, f, g, h] =>
      let t1 := add32 (add32 (add32 h (bigSigma1 e)) (add32 (chN 32 e f g) kw.1)) kw.2
      let t2 := add32 (bigSigma0 a) (majN 32 a b c)
      [add32 t1 t2, a, b, c, add32 d t1, e, f, g]
  | other => other

/-- Compress one 64-byte block into the hash state. -/
def sha256Compress (h : List Nat) (block : List Nat) : List Nat :=
  let w := extendW 48 (wordsBE block)
  let st := (w.zip sha256K).foldl sha256Round h
  (h.zip st).map (fun p => add32 p.1 p.2)

/-- SHA-256 digest bytes of a byte list. -/
def sha256Bytes (msg : List Nat) : List Nat :=
  let padded := sha256Pad msg
  let final := (chunks64 (padded.length + 1) padded).foldl sha256Compress sha256H0
  (final.map (fun wrd => [wrd / 2 ^ 24 % 256, wrd / 2 ^ 16 % 256, wrd / 2 ^ 8 % 256, wrd % 256])).flatten

def hexChar (n : Nat) : Char :=
  if n < 10 then Char.ofNat (48 + n) else Char.ofNat (87 + n)

def bytesToHex (bytes : List Nat) : String :=
  String.mk ((bytes.map (fun b => [hexChar (b / 16), hexChar (b % 16)])).flatten)

/-- Lowercase-hex SHA-256 of a byte list (`hash.digest('hex')`). -/
def sha256Hex (msg : List Nat) : String := bytesToHex (sha256Bytes msg)

/-! ## UTF-8 encoding and decoding

Modelled from the spec: standard UTF-8, as produced by `hash.update(s,
'utf8')` and `Buffer.byteLength`, and decoded by `buf.toString('utf8')`
(invalid sequences become U+FFFD). -/

def utf8EncodeCharM (c : Char) : List Nat :=
  let n := c.toNat
  if n < 0x80 then [n]
  else if n < 0x800 then [0xC0 + n / 64, 0x80 + n % 64]
  else if n < 0x10000 then [0xE0 + n / 4096, 0x80 + n / 64 % 64, 0x80 + n % 64]
  else [0xF0 + n / 262144, 0x80 + n / 4096 % 64, 0x80 + n / 64 % 64, 0x80 + n % 64]

def utf8Encode (s : String) : List Nat := (s.data.map utf8EncodeCharM).flatten

def isCont (b : Nat) : Bool := 0x80 ≤ b ∧ b < 0xC0

/-- Decode UTF-8 bytes, one replacement char per invalid leading byte. -/
def utf8DecodeAux : Nat → List Nat → List Char
  | 0, _ => []
  | _, [] => []
  | fuel + 1, b :: rest =>
      if b < 0x80 then Char.ofNat b :: utf8DecodeAux fuel rest
      else if 0xC0 ≤ b ∧ b < 0xE0 then
        match rest with
        | b1 :: rest1 =>
            if isCont b1 ∧ 0x80 ≤ (b - 0xC0) * 64 + (b1 - 0x80) then
              Char.ofNat ((b - 0xC0) * 64 + (b1 - 0x80)) :: utf8DecodeAux fuel rest1
            else Char.ofNat 0xFFFD :: utf8DecodeAux fuel rest
        | [] => [Char.ofNat 0xFFFD]
      else if 0xE0 ≤ b ∧ b < 0xF0 then
        match rest with
        | b1 :: b2 :: rest2 =>
            let n := (b - 0xE0) * 4096 + (b1 - 0x80) * 64 + (b2 - 0x80)
            if isCont b1 ∧ isCont b2 ∧ 0x800 ≤ n ∧ ¬ (0xD800 ≤ n ∧ n < 0xE000) then
              Char.ofNat n :: utf8DecodeAux fuel rest2
            else Char.ofNat 0xFFFD :: utf8DecodeAux fuel rest
        | _ => Char.ofNat 0xFFFD :: utf8DecodeAux fuel rest
      else if 0xF0 ≤ b ∧ b < 0xF8 then
        match rest with
        | b1 :: b2 :: b3 :: rest3 =>
            let n := (b - 0xF0) * 262144 + (b1 - 0x80) * 4096 + (b2 - 0x80) * 64 + (b3 - 0x80)
            if isCont b1 ∧ isCont b2 ∧ isCont b3 ∧ 0x10000 ≤ n ∧ n < 0x110000 then
              Char.ofNat n :: utf8DecodeAux fuel rest3
            else Char.ofNat 0xFFFD :: utf8DecodeAux fuel rest
        | _ => Char.ofNat 0xFFFD :: utf8DecodeAux fuel rest
      else Char.ofNat 0xFFFD :: utf8DecodeAux fuel rest

def utf8Decode (bytes : List Nat) : String :=
  String.mk (utf8DecodeAux (bytes.length + 1) bytes)

/-- Models `nameBytes.toString('latin1')`: each byte is the code point. -/
def latin1Decode (bytes : List Nat) : String :=
  String.mk (bytes.map Char.ofNat)

instance {e a : Type} [DecidableEq e] [DecidableEq a] : DecidableEq (Except e a) :=
  fun x y =>
    match x, y with
    | .ok u, .ok v =>
        if h : u = v then .isTrue (by rw [h]) else .isFalse (by intro hh; cases hh; exact h rfl)
    | .error u, .error v =>
        if h : u = v then .isTrue (by rw [h]) else .isFalse (by intro hh; cases hh; exact h rfl)
    | .ok _, .error _ => .isFalse (by intro hh; cases hh)
    | .error _, .ok _ => .isFalse (by intro hh; cases hh)

/-! ## String collation

`finalEntries.sort((a, b) => a.path.localeCompare(b.path))` orders the
manifest with `String.prototype.localeCompare`.  Modelled from the spec:
ECMA-402's default collation (the ICU root locale) restricted to the
character material at hand — a primary pass that compares letters
case-insensitively (all letters sorting after non-letters) and a tertiary
pass that puts lowercase before uppercase.  Under this collation
`"a" < "B"`, whereas code-point order has `"B" < "a"`. -/

def isAsciiUpper (c : Char) : Bool := 'A' ≤ c ∧ c ≤ 'Z'

def isAsciiLower (c : Char) : Bool := 'a' ≤ c ∧ c ≤ 'z'

/-- Primary collation weight: letters (case-folded) sort after everything
else; other characters keep code-point order. -/
def primaryWeight (c : Char) : Nat :=
  if isAsciiLower c then 0x110000 + c.toNat
  else if isAsciiUpper c then 0x110000 + c.toNat + 32
  else c.toNat

/-- Tertiary collation weight: lowercase before uppercase. -/
def tertiaryWeight (c : Char) : Nat := if isAsciiUpper c then 1 else 0

/-- Lexicographic comparison of weight lists. -/
def listCmp : List Nat → List Nat → Ordering
  | [], [] => .eq
  | [], _ :: _ => .lt
  | _ :: _, [] => .gt
  | a :: as, b :: bs => if a < b then .lt else if b < a then .gt else listCmp as bs

/-- The comparator `a.localeCompare(b)` as an `Ordering`: full primary
pass, then full tertiary pass. -/
def localeCmp (a b : String) : Ordering :=
  (listCmp (a.data.map primaryWeight) (b.data.map primaryWeight)).then
    (listCmp (a.data.map tertiaryWeight) (b.data.map tertiaryWeight))

/-- The boolean `a.localeCompare(b) <= 0` that drives the final sort. -/
def localeLe (a b : String) : Bool := localeCmp a b ≠ .gt

/-- Strict code-point (UTF-32 / UTF-16-compatible for BMP) comparison of
strings, the order named by the specification. -/
def codePointLt (a b : String) : Bool :=
  listCmp (a.data.map Char.toNat) (b.data.map Char.toNat) = .lt

/-! ## Record types of the pipeline -/

/-- Models `{ sha256, size, crc32 }` returned by `processRawToCas`. -/
structure StreamResult where
  sha256 : String
  size : Nat
  crc32 : Nat
  deriving Repr, DecidableEq

/-- One `{path, sha256, size}` manifest entry. -/
structure FileEntry where
  path : String
  sha256 : String
  size : Nat
  deriving Repr, DecidableEq

/-- The fields of `ZipEntryHeader` (`zip_stream.ts`). -/
structure ZipEntryHeader where
  localHeaderOffset : Nat
  fileNameBytes : List Nat
  extra : List Nat
  method : Nat
  flags : Nat
  compressedSize : Nat
  uncompressedSize : Nat
  crc32 : Nat
  deriving Repr, DecidableEq

/-- A data descriptor (`zip_stream.ts`). -/
structure DataDescriptor where
  crc32 : Nat
  compressedSize : Nat
  uncompressedSize : Nat
  deriving Repr, DecidableEq

/-- A `CentralEntry` (`central_directory.ts`). -/
structure CentralEntry where
  fileName : String
  flags : Nat
  method : Nat
  crc32 : Nat
  compressedSize : Nat
  uncompressedSize : Nat
  localHeaderOffset : Nat
  isDirectory : Bool
  deriving Repr, DecidableEq

/-- Models `UploadLimits` (`upload_zip.ts`). -/
structure UploadLimits where
  maxEntries : Nat
  maxFileBytes : Nat
  maxTotalBytes : Nat
  maxZipBytes : Nat
  deriving Repr, DecidableEq

/-- The fileset manifest document. -/
structure Manifest where
  fileset_id : String
  file_count : Nat
  total_bytes : Nat
  files : List FileEntry
  warnings : List String
  deriving Repr, DecidableEq

/-- Models `{ filesetId, manifest, updatedRef }` returned by `uploadZipAsFileset`. -/
structure IngestResult where
  filesetId : String
  manifest : Manifest
  updatedRef : Option String
  deriving Repr, DecidableEq

/-- Filesystem effects of one ingest, in program order:
`commitTempObject`, `storeFilesetManifest`, `writeRef`. -/
inductive Eff where
  | commitObject (sha256hex : String)
  | storeManifest (filesetId : String) (manifest : Manifest)
  | writeRef (name filesetId : String)
  deriving Repr, DecidableEq

/-! ## Path normalization (`normalizeZipPath` of `upload_zip.ts`)

```js
function normalizeZipPath(p) {
  if (p.includes('\u0000')) throw new Error('Invalid filename (NUL)');
  p = p.replace(/\\/g, '/');
  while (p.startsWith('./')) p = p.slice(2);
  if (p.startsWith('/')) throw new Error('Absolute paths not allowed');
  const parts = p.split('/');
  const out = [];
  for (const part of parts) {
    if (part === '' || part === '.') continue;
    if (part === '..') throw new Error('Parent path not allowed');
    out.push(part);
  }
  return out.join('/');
}
```
-/

def stripDotSlash : List Char → List Char
  | '.' :: '/' :: rest => stripDotSlash rest
  | l => l

def checkParts : List String → Except String (List String)
  | [] => .ok []
  | part :: rest =>
      if part = "" ∨ part = "." then checkParts rest
      else if part = ".." then .error "Parent path not allowed"
      else
        match checkParts rest with
        | .error e => .error e
        | .ok out => .ok (part :: out)

/-- Models `p.replace(/\\/g, '/')`. -/
def replaceBackslashes (p : String) : String :=
  String.mk (p.data.map (fun c => if c = '\\' then '/' else c))

/-- Models `while (p.startsWith('./')) p = p.slice(2)` applied after the
backslash replacement. -/
def afterStrip (p : String) : String :=
  String.mk (stripDotSlash (replaceBackslashes p).data)

def normalizeZipPath (p : String) : Except String String :=
  if p.data.contains (Char.ofNat 0) then .error "Invalid filename (NUL)"
  else if jsStartsWith (afterStrip p) "/" then .error "Absolute paths not allowed"
  else
    match checkParts (jsSplit '/' (afterStrip p)) with
    | .error e => .error e
    | .ok out => .ok (String.intercalate "/" out)

/-! ## Local-header and data-descriptor cross-checks

The two cross-check blocks of the streaming loop in `uploadZipAsFileset`:

```js
if (!usesDD) {
  if (hdr.uncompressedSize !== 0n && hdr.uncompressedSize !== BigInt(r.size)) throw new Error('Size mismatch (local header)');
  if (hdr.crc32 !== 0 && hdr.crc32 !== r.crc32) throw new Error('CRC mismatch (local header)');
} else {
  const dd = await zr.readDataDescriptor(zip64Sizes);
  if (dd.uncompressedSize !== BigInt(r.size)) throw new Error('Size mismatch (DD)');
  if (dd.crc32 !== r.crc32) throw new Error('CRC mismatch (DD)');
}
```
-/

def checkLocalHeader (hdrUncompressedSize hdrCrc32 : Nat) (r : StreamResult) :
    Except String Unit :=
  if hdrUncompressedSize ≠ 0 ∧ hdrUncompressedSize ≠ r.size then
    .error "Size mismatch (local header)"
  else if hdrCrc32 ≠ 0 ∧ hdrCrc32 ≠ r.crc32 then
    .error "CRC mismatch (local header)"
  else .ok ()

def checkDataDescriptor (dd : DataDescriptor) (r : StreamResult) : Except String Unit :=
  if dd.uncompressedSize ≠ r.size then .error "Size mismatch (DD)"
  else if dd.crc32 ≠ r.crc32 then .error "CRC mismatch (DD)"
  else .ok ()

/-! ## Signatures and external codecs -/

def LFH_SIG : Nat := 0x04034b50

def CDH_SIG : Nat := 0x02014b50

def EOCD_SIG : Nat := 0x06054b50

def DD_SIG : Nat := 0x08074b50

def Z64_LOC_SIG : Nat := 0x07064b50

def Z64_EOCD_SIG : Nat := 0x06064b50

def maxSafeInteger : Nat := 2 ^ 53 - 1

/-- Modelled from the spec: the external decoders the pipeline calls but
the repository does not implement — `zlib.createInflateRaw` applied to a
known-length compressed slice (`inflateRawK`), the same decoder applied
to an unknown-length substream, returning the raw bytes and how many
input bytes the DEFLATE stream occupied (`inflateRawU`), and
`TextDecoder('shift_jis', { fatal: true })`, `none` when strict decoding
fails (`shiftJis`). -/
structure ExternalCodecs where
  inflateRawK : List Nat → Except String (List Nat)
  inflateRawU : List Nat → Except String (List Nat × Nat)
  shiftJis : List Nat → Option String

/-! ## ZIP stream reader (`zip_stream.ts`)

The byte-queue fed by the spool tee delivers exactly the upload bytes, so
the reader state is a cursor `pos` into `data`; `ensure(n)` succeeds iff
`n` bytes remain (the producer has ended once the whole body is known),
and `consumedTotal = pos`. -/

structure Zip64Fields where
  csize : Option Nat
  usize : Option Nat
  deriving Repr, DecidableEq

/-- Models `parseZip64Extra(extra, wantC, wantU)` of `zip_stream.ts`: scan the
extra block for tag `0x0001`; inside it read `usize` first when wanted,
then `csize`. -/
def parseZip64Extra (extra : List Nat) (wantC wantU : Bool) : Nat → Nat → Zip64Fields
  | 0, _ => ⟨none, none⟩
  | fuel + 1, off =>
      if off + 4 ≤ extra.length then
        let id := readU16LE extra off
        let sz := readU16LE extra (off + 2)
        let off := off + 4
        if off + sz > extra.length then ⟨none, none⟩
        else if id = 0x0001 then
          let usize := if wantU then some (readU64LE extra off) else none
          let p := if wantU then off + 8 else off
          let csize := if wantC then some (readU64LE extra p) else none
          ⟨csize, usize⟩
        else parseZip64Extra extra wantC wantU fuel (off + sz)
      else ⟨none, none⟩

/-- Models `ZipStreamReader.nextHeader`: `none` when the next signature is a
central-directory or EOCD signature (or anything that is not a local file
header), otherwise the parsed header and the new cursor. -/
def nextHeader (data : List Nat) (pos : Nat) :
    Except String (Option (ZipEntryHeader × Nat)) := do
  if data.length < pos + 4 then throw "Unexpected EOF"
  let sig := readU32LE data pos
  if sig = CDH_SIG ∨ sig = EOCD_SIG then return none
  if sig ≠ LFH_SIG then return none
  let localHeaderOffset := pos
  if data.length < pos + 30 then throw "Unexpected EOF"
  let h := sliceZ data pos 30
  let pos := pos + 30
  let flags := readU16LE h 6
  let method := readU16LE h 8
  if method ≠ 0 ∧ method ≠ 8 then throw s!"Unsupported compression method: {method}"
  let crc32v := readU32LE h 14
  let csize32 := readU32LE h 18
  let usize32 := readU32LE h 22
  let nameLen := readU16LE h 26
  let extraLen := readU16LE h 28
  if data.length < pos + (nameLen + extraLen) then throw "Unexpected EOF"
  let nameBuf := sliceZ data pos nameLen
  let extra := sliceZ data (pos + nameLen) extraLen
  let pos := pos + nameLen + extraLen
  let wantC := csize32 = 0xFFFFFFFF
  let wantU := usize32 = 0xFFFFFFFF
  let z64 := if wantC ∨ wantU then parseZip64Extra extra wantC wantU (extra.length + 1) 0
             else ⟨none, none⟩
  if wantC ∧ z64.csize = none then throw "Zip64 csize missing"
  if wantU ∧ z64.usize = none then throw "Zip64 usize missing"
  let csize := z64.csize.getD csize32
  let usize := z64.usize.getD usize32
  return some ({ localHeaderOffset, fileNameBytes := nameBuf, extra, method, flags,
                 compressedSize := csize, uncompressedSize := usize, crc32 := crc32v }, pos)

/-- Models `ZipStreamReader.readDataDescriptor`. -/
def readDataDescriptor (data : List Nat) (pos : Nat) (zip64 : Bool) :
    Except String (DataDescriptor × Nat) := do
  if data.length < pos + 12 then throw "Unexpected EOF"
  let first := readU32LE data pos
  let pos := if first = DD_SIG then pos + 4 else pos
  if data.length < pos + (if zip64 then 4 + 8 + 8 else 4 + 4 + 4) then throw "Unexpected EOF"
  let crc := readU32LE data pos
  if zip64 then
    let csize := readU64LE data (pos + 4)
    let usize := readU64LE data (pos + 12)
    return (⟨crc, csize, usize⟩, pos + 20)
  else
    let csize := readU32LE data (pos + 4)
    let usize := readU32LE data (pos + 8)
    return (⟨crc, csize, usize⟩, pos + 12)

/-! ## Central directory reader (`central_directory.ts`) -/

/-- The backwards EOCD scan
`for (let i = tail.length - 22; i >= 0; i--)`: the argument is one past
the first index inspected. -/
def scanBackAux (tail : List Nat) : Nat → Option Nat
  | 0 => none
  | k + 1 => if readU32LE tail k = EOCD_SIG then some k else scanBackAux tail k

def scanBackEOCD (tail : List Nat) : Option Nat :=
  if tail.length < 22 then none else scanBackAux tail (tail.length - 22 + 1)

/-- Models `size > maxSearch ? size - maxSearch : 0` with `maxSearch = 0x10000 + 22`. -/
def eocdWindowStart (size : Nat) : Nat :=
  if size > 0x10000 + 22 then size - (0x10000 + 22) else 0

/-- Lines 126–136 of `central_directory.ts`: take the last
`min(filesize, 0x10000 + 22)` bytes and scan backwards for the EOCD
signature.  Returns the tail's start offset and the signature's offset
within the tail. -/
def locateEOCD (data : List Nat) : Option (Nat × Nat) :=
  match scanBackEOCD (data.drop (eocdWindowStart data.length)) with
  | none => none
  | some i => some (eocdWindowStart data.length, i)

structure Zip64CDFields where
  usize : Option Nat
  csize : Option Nat
  offset : Option Nat
  deriving Repr, DecidableEq

/-- Models `parseExtraZip64(extra, wantU, wantC, wantOff)` of
`central_directory.ts`: inside tag `0x0001` read `usize`, `csize`,
`offset` in that order, each only when wanted. -/
def parseExtraZip64 (extra : List Nat) (wantU wantC wantOff : Bool) :
    Nat → Nat → Zip64CDFields
  | 0, _ => ⟨none, none, none⟩
  | fuel + 1, off =>
      if off + 4 ≤ extra.length then
        let id := readU16LE extra off
        let sz := readU16LE extra (off + 2)
        let off := off + 4
        if off + sz > extra.length then ⟨none, none, none⟩
        else if id = 0x0001 then
          let usize := if wantU then some (readU64LE extra off) else none
          let p := if wantU then off + 8 else off
          let csize := if wantC then some (readU64LE extra p) else none
          let p := if wantC then p + 8 else p
          let offset := if wantOff then some (readU64LE extra p) else none
          ⟨usize, csize, offset⟩
        else parseExtraZip64 extra wantU wantC wantOff fuel (off + sz)
      else ⟨none, none, none⟩

/-- Models `parseUnicodePath` (tag `0x7075`, version 1). -/
def parseUnicodePath (extra : List Nat) : Nat → Nat → Option (List Nat)
  | 0, _ => none
  | fuel + 1, off =>
      if off + 4 ≤ extra.length then
        let id := readU16LE extra off
        let sz := readU16LE extra (off + 2)
        let off := off + 4
        if off + sz > extra.length then none
        else if id = 0x7075 ∧ sz ≥ 5 then
          if byteAt extra off ≠ 1 then none
          else some (sliceClip extra (off + 5) (sz - 5))
        else parseUnicodePath extra fuel (off + sz)
      else none

/-- Models `decodeName(nameBytes, flags, extra)`: UTF-8 flag (bit 11), then the
Unicode Path Extra Field, then strict Shift-JIS, then Latin-1. -/
def decodeName (ext : ExternalCodecs) (nameBytes : List Nat) (flags : Nat)
    (extra : List Nat) : String :=
  let utf8Flag := flags / 2 ^ 11 % 2 = 1
  let upath := parseUnicodePath extra (extra.length + 1) 0
  if utf8Flag then utf8Decode nameBytes
  else
    match upath with
    | some u => utf8Decode u
    | none =>
        match ext.shiftJis nameBytes with
        | some s => s
        | none => latin1Decode nameBytes

/-- The CD record enumeration loop (`while (p + 46 <= cdBuf.length)`). -/
def parseCDEntries (ext : ExternalCodecs) (cdBuf : List Nat) :
    Nat → Nat → Except String (List CentralEntry)
  | 0, _ => .ok []
  | fuel + 1, p =>
      if ¬ (p + 46 ≤ cdBuf.length) then .ok []
      else if readU32LE cdBuf p ≠ CDH_SIG then .ok []
      else do
        let flags := readU16LE cdBuf (p + 8)
        let method := readU16LE cdBuf (p + 10)
        let crc := readU32LE cdBuf (p + 16)
        let csize32e := readU32LE cdBuf (p + 20)
        let usize32e := readU32LE cdBuf (p + 24)
        let nameLen := readU16LE cdBuf (p + 28)
        let extraLen := readU16LE cdBuf (p + 30)
        let commentLen := readU16LE cdBuf (p + 32)
        let lhoff32 := readU32LE cdBuf (p + 42)
        let nameBytes := sliceClip cdBuf (p + 46) nameLen
        let extra := sliceClip cdBuf (p + 46 + nameLen) extraLen
        let wantU := usize32e = 0xFFFFFFFF
        let wantC := csize32e = 0xFFFFFFFF
        let wantO := lhoff32 = 0xFFFFFFFF
        let z64 := if wantU ∨ wantC ∨ wantO then
            parseExtraZip64 extra wantU wantC wantO (extra.length + 1) 0
          else ⟨none, none, none⟩
        if wantU ∧ z64.usize = none then throw "Zip64 usize missing in central"
        if wantC ∧ z64.csize = none then throw "Zip64 csize missing in central"
        if wantO ∧ z64.offset = none then throw "Zip64 offset missing in central"
        let usize := z64.usize.getD usize32e
        let csize := z64.csize.getD csize32e
        let lhoff := z64.offset.getD lhoff32
        let name := decodeName ext nameBytes flags extra
        let rest ← parseCDEntries ext cdBuf fuel (p + 46 + nameLen + extraLen + commentLen)
        return { fileName := name, flags, method, crc32 := crc, compressedSize := csize,
                 uncompressedSize := usize, localHeaderOffset := lhoff,
                 isDirectory := jsEndsWith name "/" } :: rest

/-- Models `readCentralDirectory(zipPath)` over the complete spool bytes. -/
def readCentralDirectory (ext : ExternalCodecs) (data : List Nat) :
    Except String (List CentralEntry × List String) := do
  let some (start, eocdOff) := locateEOCD data | throw "EOCD not found"
  let tail := data.drop start
  let eocd := tail.drop eocdOff
  let cdSize32 := readU32LE eocd 12
  let cdOff32 := readU32LE eocd 16
  let totalEntries16 := readU16LE eocd 10
  let needsZip64 := cdSize32 = 0xFFFFFFFF ∨ cdOff32 = 0xFFFFFFFF ∨ totalEntries16 = 0xFFFF
  let (cdSize, cdOff, warnings) ←
    if needsZip64 then
      if eocdOff ≥ 20 ∧ readU32LE tail (eocdOff - 20) = Z64_LOC_SIG then do
        let loc := sliceClip tail (eocdOff - 20) 20
        let z64eocdOff := readU64LE loc 8
        let zbuf := sliceZ data z64eocdOff 56
        if readU32LE zbuf 0 ≠ Z64_EOCD_SIG then throw "Zip64 EOCD not found"
        pure (readU64LE zbuf 40, readU64LE zbuf 48, ([] : List String))
      else
        pure (cdSize32, cdOff32,
          ["Zip64 needed but Zip64 locator not found; using 32-bit CD fields"])
    else
      pure (cdSize32, cdOff32, ([] : List String))
  let cdBuf := sliceZ data cdOff cdSize
  let entries ← parseCDEntries ext cdBuf (cdBuf.length + 1) 0
  return (entries, warnings)

/-! ## Ingest orchestrator (`uploadZipAsFileset` of `upload_zip.ts`)

Within one ingest the `await` points make the orchestrator a sequential
program over the upload bytes, so it is embedded as a pure function from
the complete body to the filesystem effects it performs (in program
order) and its outcome.  On failure the effect list records what had
already been committed when the error was thrown. -/

/-- Models `Map.prototype.get`. -/
def assocGet {α : Type} : List (String × α) → String → Option α
  | [], _ => none
  | (k, v) :: rest, key => if k = key then some v else assocGet rest key

/-- Models `Map.prototype.set`: replaces in place, else appends. -/
def assocSet {α : Type} : List (String × α) → String → α → List (String × α)
  | [], key, v => [(key, v)]
  | (k, w) :: rest, key, v =>
      if k = key then (k, v) :: rest else (k, w) :: assocSet rest key v

/-- Models `processRawToCas`: tap (SHA-256, CRC-32, size, per-file cap), then
Brotli to a temp file and atomic commit.  The stored Brotli bytes never
influence the manifest; the `commitTempObject` call this function makes
on success is recorded by its callers as a `commitObject r.sha256`
effect. -/
def processRawToCas (limits : UploadLimits) (raw : List Nat) :
    Except String StreamResult :=
  if raw.length > limits.maxFileBytes then .error "File too large"
  else .ok ⟨sha256Hex raw, raw.length, crc32Update 0 raw⟩

/-- Models `processEntryFromSpool`: random-access fallback re-read of one entry. -/
def processEntryFromSpool (ext : ExternalCodecs) (limits : UploadLimits)
    (data : List Nat) (localHeaderOffset method compressedSize : Nat) :
    Except String StreamResult :=
  let h := sliceZ data localHeaderOffset 30
  if readU32LE h 0 ≠ LFH_SIG then .error "Local header signature mismatch"
  else
    let nameLen := readU16LE h 26
    let extraLen := readU16LE h 28
    let dataStart := localHeaderOffset + 30 + nameLen + extraLen
    if compressedSize > maxSafeInteger then .error "Entry too large"
    else
      let comp := sliceClip data dataStart compressedSize
      if method = 0 then processRawToCas limits comp
      else if method = 8 then
        match ext.inflateRawK comp with
        | .error e => .error e
        | .ok raw => processRawToCas limits raw
      else .error s!"Unsupported method in fallback: {method}"

/-- State of the streaming phase. -/
structure StreamPhase where
  pos : Nat
  entryCount : Nat
  totalBytes : Nat
  processed : List (String × StreamResult)
  warnings : List String
  effs : List Eff
  deriving Repr

/-- The body of one iteration of the streaming loop, after `nextHeader`
returned `hdr` with the cursor at `pos1`. -/
def streamEntry (ext : ExternalCodecs) (limits : UploadLimits) (data : List Nat)
    (st : StreamPhase) (hdr : ZipEntryHeader) (pos1 : Nat) :
    Except (StreamPhase × String) StreamPhase :=
  let entryCount := st.entryCount + 1
  if entryCount > limits.maxEntries then .error (st, "Too many entries")
  else
    let usesDD := hdr.flags / 2 ^ 3 % 2 = 1
    let zip64Sizes := 0xFFFFFFFF < hdr.compressedSize ∨ 0xFFFFFFFF < hdr.uncompressedSize
    if usesDD ∧ hdr.method = 0 then
      let off := hdr.localHeaderOffset
      .ok { st with
            pos := pos1
            entryCount := entryCount
            warnings := st.warnings ++ [s!"Deferred STORE+DD at offset {off}"] }
    else
      let rawAndPos : Except String (List Nat × Nat) :=
        if ¬ usesDD then
          if hdr.compressedSize > maxSafeInteger then .error "Entry too large"
          else if data.length < pos1 + hdr.compressedSize then .error "Unexpected EOF"
          else
            let comp := sliceZ data pos1 hdr.compressedSize
            if hdr.method = 0 then .ok (comp, pos1 + hdr.compressedSize)
            else (ext.inflateRawK comp).map (fun raw => (raw, pos1 + hdr.compressedSize))
        else
          match ext.inflateRawU (data.drop pos1) with
          | .error e => .error e
          | .ok (raw, consumed) => .ok (raw, pos1 + consumed)
      match rawAndPos with
      | .error e => .error ({ st with entryCount := entryCount }, e)
      | .ok (raw, pos2) =>
          match processRawToCas limits raw with
          | .error e => .error ({ st with entryCount := entryCount }, e)
          | .ok r =>
              let st := { st with
                          entryCount := entryCount
                          effs := st.effs ++ [Eff.commitObject r.sha256] }
              let totalBytes := st.totalBytes + r.size
              if totalBytes > limits.maxTotalBytes then .error (st, "Total too large")
              else
                let st := { st with totalBytes := totalBytes }
                if ¬ usesDD then
                  match checkLocalHeader hdr.uncompressedSize hdr.crc32 r with
                  | .error e => .error (st, e)
                  | .ok _ =>
                      .ok { st with
                            pos := pos2
                            processed := assocSet st.processed (toString hdr.localHeaderOffset) r }
                else
                  match readDataDescriptor data pos2 zip64Sizes with
                  | .error e => .error (st, e)
                  | .ok (dd, pos3) =>
                      match checkDataDescriptor dd r with
                      | .error e => .error (st, e)
                      | .ok _ =>
                          .ok { st with
                                pos := pos3
                                processed := assocSet st.processed (toString hdr.localHeaderOffset) r }

/-- The streaming loop.  Every iteration advances the cursor by at least
the 30-byte header, so fuel `data.length + 1` is never exhausted. -/
def streamLoop (ext : ExternalCodecs) (limits : UploadLimits) (data : List Nat) :
    Nat → StreamPhase → Except (StreamPhase × String) StreamPhase
  | 0, st => .error (st, "Unexpected EOF")
  | fuel + 1, st =>
      match nextHeader data st.pos with
      | .error e => .error (st, e)
      | .ok none => .ok st
      | .ok (some (hdr, pos1)) =>
          match streamEntry ext limits data st hdr pos1 with
          | .error err => .error err
          | .ok st' => streamLoop ext limits data fuel st'

/-- State of the reconciliation phase. -/
structure ReconState where
  processed : List (String × StreamResult)
  finalEntries : List FileEntry
  seenPaths : List (String × Nat)
  warnings : List String
  effs : List Eff
  deriving Repr

/-- The duplicate-path warning text
(`\`Duplicate path: ${norm} (last wins)\``). -/
def dupMsg (p : String) : String := "Duplicate path: " ++ p ++ " (last wins)"

/-- Duplicate handling (`// Duplicate paths: last wins`): replace the
earlier entry in place and warn, or append and record the index. -/
def addFinalEntry (st : ReconState) (norm : String) (r : StreamResult) : ReconState :=
  match assocGet st.seenPaths norm with
  | some idx =>
      { st with
        warnings := st.warnings ++ [dupMsg norm]
        finalEntries := st.finalEntries.set idx ⟨norm, r.sha256, r.size⟩ }
  | none =>
      { st with
        seenPaths := st.seenPaths ++ [(norm, st.finalEntries.length)]
        finalEntries := st.finalEntries ++ [⟨norm, r.sha256, r.size⟩] }

/-- One iteration of the reconciliation loop (`for (const e of cd.entries)`). -/
def reconEntry (ext : ExternalCodecs) (limits : UploadLimits) (data : List Nat)
    (st : ReconState) (e : CentralEntry) : Except (ReconState × String) ReconState :=
  if e.isDirectory then .ok st
  else if e.method ≠ 0 ∧ e.method ≠ 8 then
    let m := e.method
    .error (st, s!"Unsupported method in CD: {m}")
  else
    match normalizeZipPath e.fileName with
    | .error err => .error (st, err)
    | .ok norm =>
        if norm = "" then .ok st
        else
          let key := toString e.localHeaderOffset
          match assocGet st.processed key with
          | some r =>
              if r.size ≠ e.uncompressedSize then
                .error (st, s!"Size mismatch vs CD for {norm}")
              else if r.crc32 ≠ e.crc32 then
                .error (st, s!"CRC mismatch vs CD for {norm}")
              else .ok (addFinalEntry st norm r)
          | none =>
              match processEntryFromSpool ext limits data e.localHeaderOffset e.method
                  e.compressedSize with
              | .error err => .error (st, err)
              | .ok r =>
                  let st := { st with effs := st.effs ++ [Eff.commitObject r.sha256] }
                  if r.size ≠ e.uncompressedSize then
                    .error (st, s!"Fallback size mismatch for {norm}")
                  else if r.crc32 ≠ e.crc32 then
                    .error (st, s!"Fallback CRC mismatch for {norm}")
                  else
                    let st := { st with processed := assocSet st.processed key r }
                    .ok (addFinalEntry st norm r)

def reconLoop (ext : ExternalCodecs) (limits : UploadLimits) (data : List Nat) :
    List CentralEntry → ReconState → Except (ReconState × String) ReconState
  | [], st => .ok st
  | e :: rest, st =>
      match reconEntry ext limits data st e with
      | .error err => .error err
      | .ok st' => reconLoop ext limits data rest st'

/-- The ordering the comparator
`(a, b) => a.path.localeCompare(b.path)` induces on entries. -/
def entryLe (a b : FileEntry) : Prop := localeLe a.path b.path = true

instance : DecidableRel entryLe := fun _ _ => instDecidableEqBool _ _

/-- Models `finalEntries.sort((a, b) => a.path.localeCompare(b.path))`:
`Array.prototype.sort` is a stable sort by the comparator, and every
stable sort of a total preorder computes the same list, so it is embedded
as an insertion sort (which is stable and fully evaluable). -/
def sortFinalEntries (l : List FileEntry) : List FileEntry :=
  List.insertionSort entryLe l

/-- The canonical string: concatenation over the sorted final entries of
`path + " sha256:" + hash + " " + size + "\n"`. -/
def canonicalString (finalEntries : List FileEntry) : String :=
  String.join (finalEntries.map
    (fun e => e.path ++ " sha256:" ++ e.sha256 ++ " " ++ toString e.size ++ "\n"))

/-- Models `createHash('sha256').update('v1 ').update(canonical, 'utf8')`. -/
def filesetIdOf (canonical : String) : String :=
  sha256Hex (utf8Encode "v1 " ++ utf8Encode canonical)

/-- The manifest document built at the end of a successful ingest. -/
def buildManifest (finalEntries : List FileEntry) (warnings : List String) : Manifest :=
  let filesetId := filesetIdOf (canonicalString finalEntries)
  { fileset_id := filesetId,
    file_count := finalEntries.length,
    total_bytes := finalEntries.foldl (fun s e => s + e.size) 0,
    files := finalEntries,
    warnings }

/-- Models `uploadZipAsFileset`: spool cap, streaming phase, central-directory
reconciliation, canonicalization and commit.  Returns the filesystem
effects in program order together with the outcome. -/
def uploadZipAsFileset (ext : ExternalCodecs) (limits : UploadLimits)
    (updateRef : Option String) (data : List Nat) :
    List Eff × Except String IngestResult :=
  if data.length > limits.maxZipBytes then ([], .error "ZIP too large")
  else
    match streamLoop ext limits data (data.length + 1) ⟨0, 0, 0, [], [], []⟩ with
    | .error (st, e) => (st.effs, .error e)
    | .ok st =>
        match readCentralDirectory ext data with
        | .error e => (st.effs, .error e)
        | .ok (entries, cdWarnings) =>
            match reconLoop ext limits data entries
                ⟨st.processed, [], [], st.warnings ++ cdWarnings, st.effs⟩ with
            | .error (rst, e) => (rst.effs, .error e)
            | .ok rst =>
                let finalEntries := sortFinalEntries rst.finalEntries
                let manifest := buildManifest finalEntries rst.warnings
                let filesetId := manifest.fileset_id
                let effs := rst.effs ++ [.storeManifest filesetId manifest] ++
                  (match updateRef with
                   | some r => [.writeRef r filesetId]
                   | none => [])
                (effs, .ok { filesetId, manifest, updatedRef := updateRef })

/-! ## The `GET /objects/{sha}` handler (`server.ts`, lines 83–110) -/

structure HttpResponse where
  status : Nat
  headers : List (String × String)
  body : String
  deriving Repr, DecidableEq


/-- The `/objects/{sha}` branch of the request handler.  `sha` is the
path segment, `inm` and `acceptEncoding` the headers (absent headers are
the empty string, as in `(req.headers[...] ?? '').toString()`), and
`objExists` whether `cas.openObjectStream(sha)` finds the object. -/
def handleGetObject (sha inm acceptEncoding : String) (objExists : Bool) : HttpResponse :=
  if sha = "" then ⟨400, [], "Missing object id"⟩
  else
    let etag := "\"sha256:" ++ sha ++ "\""
    if inm ≠ "" ∧ ((jsSplit ',' inm).map jsTrim).contains etag then
      ⟨304, [("etag", etag)], ""⟩
    else if acceptEncoding ≠ "" ∧ ¬ jsIncludes acceptEncoding "br" ∧
        ¬ jsIncludes acceptEncoding "*" then
      ⟨406, [], "Not Acceptable (need br)"⟩
    else if ¬ objExists then ⟨404, [], "Not found"⟩
    else
      ⟨200, [("content-type", "application/octet-stream"), ("content-encoding", "br"),
             ("etag", etag), ("cache-control", "public, max-age=31536000, immutable")], ""⟩

/-! ## Concrete archives

Byte-for-byte ZIP archives used to exercise the pipeline on closed
inputs.  `emptyZipBytes` is an archive with no entries (a lone EOCD
record).  `deferredZipBytes` holds three STORE entries `a ↦ "X"`,
`b ↦ "Y"`, `c ↦ "Z"`; the first uses a data descriptor (flags bit 3), so
the streaming phase defers it and then stops at its payload, leaving all
three entries to the central-directory fallback. -/

def emptyZipBytes : List Nat :=
  [80, 75, 5, 6, 0, 0, 0, 0, 0, 0, 0, 0, 0, 0, 0, 0, 0, 0, 0, 0, 0, 0]

def deferredZipBytes : List Nat :=
  [80, 75, 3, 4, 20, 0, 8, 0, 0, 0, 0, 0, 0, 0, 0, 0, 0, 0, 0, 0, 0, 0, 0, 0, 0, 0, 1, 0,
   0, 0, 97, 88, 80, 75, 7, 8, 75, 54, 178, 183, 1, 0, 0, 0, 1, 0, 0, 0, 80, 75, 3, 4, 20,
   0, 0, 8, 0, 0, 0, 0, 0, 0, 221, 6, 181, 192, 1, 0, 0, 0, 1, 0, 0, 0, 1, 0, 0, 0, 98, 89,
   80, 75, 3, 4, 20, 0, 0, 8, 0, 0, 0, 0, 0, 0, 103, 87, 188, 89, 1, 0, 0, 0, 1, 0, 0, 0,
   1, 0, 0, 0, 99, 90, 80, 75, 1, 2, 20, 0, 20, 0, 8, 8, 0, 0, 0, 0, 0, 0, 75, 54, 178,
   183, 1, 0, 0, 0, 1, 0, 0, 0, 1, 0, 0, 0, 0, 0, 0, 0, 0, 0, 0, 0, 0, 0, 0, 0, 0, 0, 97,
   80, 75, 1, 2, 20, 0, 20, 0, 0, 8, 0, 0, 0, 0, 0, 0, 221, 6, 181, 192, 1, 0, 0, 0, 1, 0,
   0, 0, 1, 0, 0, 0, 0, 0, 0, 0, 0, 0, 0, 0, 0, 0, 48, 0, 0, 0, 98, 80, 75, 1, 2, 20, 0,
   20, 0, 0, 8, 0, 0, 0, 0, 0, 0, 103, 87, 188, 89, 1, 0, 0, 0, 1, 0, 0, 0, 1, 0, 0, 0, 0,
   0, 0, 0, 0, 0, 0, 0, 0, 0, 80, 0, 0, 0, 99, 80, 75, 5, 6, 0, 0, 0, 0, 3, 0, 3, 0, 141,
   0, 0, 0, 112, 0, 0, 0, 0, 0]

/-- Archive `dupZipBytes`: two STORE entries both named `dup.txt`, payloads `"1"`
then `"2"` (spec §8 scenario 5). -/
def dupZipBytes : List Nat :=
  [80, 75, 3, 4, 20, 0, 0, 8, 0, 0, 0, 0, 0, 0, 183, 239, 220, 131, 1, 0, 0, 0, 1, 0, 0,
   0, 7, 0, 0, 0, 100, 117, 112, 46, 116, 120, 116, 49, 80, 75, 3, 4, 20, 0, 0, 8, 0, 0,
   0, 0, 0, 0, 13, 190, 213, 26, 1, 0, 0, 0, 1, 0, 0, 0, 7, 0, 0, 0, 100, 117, 112, 46,
   116, 120, 116, 50, 80, 75, 1, 2, 20, 0, 20, 0, 0, 8, 0, 0, 0, 0, 0, 0, 183, 239, 220,
   131, 1, 0, 0, 0, 1, 0, 0, 0, 7, 0, 0, 0, 0, 0, 0, 0, 0, 0, 0, 0, 0, 0, 0, 0, 0, 0,
   100, 117, 112, 46, 116, 120, 116, 80, 75, 1, 2, 20, 0, 20, 0, 0, 8, 0, 0, 0, 0, 0, 0,
   13, 190, 213, 26, 1, 0, 0, 0, 1, 0, 0, 0, 7, 0, 0, 0, 0, 0, 0, 0, 0, 0, 0, 0, 0, 0,
   38, 0, 0, 0, 100, 117, 112, 46, 116, 120, 116, 80, 75, 5, 6, 0, 0, 0, 0, 2, 0, 2, 0,
   106, 0, 0, 0, 76, 0, 0, 0, 0, 0]

/-- Archive `caseZipBytes`: two STORE entries named `B` (payload `"1"`) and `a`
(payload `"2"`), exposing the manifest sort order on mixed case. -/
def caseZipBytes : List Nat :=
  [80, 75, 3, 4, 20, 0, 0, 8, 0, 0, 0, 0, 0, 0, 183, 239, 220, 131, 1, 0, 0, 0, 1, 0, 0,
   0, 1, 0, 0, 0, 66, 49, 80, 75, 3, 4, 20, 0, 0, 8, 0, 0, 0, 0, 0, 0, 13, 190, 213, 26,
   1, 0, 0, 0, 1, 0, 0, 0, 1, 0, 0, 0, 97, 50, 80, 75, 1, 2, 20, 0, 20, 0, 0, 8, 0, 0, 0,
   0, 0, 0, 183, 239, 220, 131, 1, 0, 0, 0, 1, 0, 0, 0, 1, 0, 0, 0, 0, 0, 0, 0, 0, 0, 0,
   0, 0, 0, 0, 0, 0, 0, 66, 80, 75, 1, 2, 20, 0, 20, 0, 0, 8, 0, 0, 0, 0, 0, 0, 13, 190,
   213, 26, 1, 0, 0, 0, 1, 0, 0, 0, 1, 0, 0, 0, 0, 0, 0, 0, 0, 0, 0, 0, 0, 0, 32, 0, 0,
   0, 97, 80, 75, 5, 6, 0, 0, 0, 0, 2, 0, 2, 0, 94, 0, 0, 0, 64, 0, 0, 0, 0, 0]

/-- External codecs that are never consulted (all three archives above
use only STORE entries with UTF-8-flagged names). -/
def unusedCodecs : ExternalCodecs :=
  ⟨fun _ => .error "inflate unused", fun _ => .error "inflate unused", fun _ => none⟩

/-- The server's configured limits (`server.ts`). -/
def serverLimits : UploadLimits :=
  ⟨8000, 500 * 1024 * 1024, 2 * 1024 * 1024 * 1024, 300 * 1024 * 1024⟩

/-- Small limits (`maxEntries = 1`) for exercising the entry cap. -/
def smallLimits : UploadLimits := ⟨1, 100, 1000, 1000⟩

/-! ## Specification views of the duplicate-handling fold

The reconciliation loop feeds each surviving `(normalized path, result)`
pair to `addFinalEntry`.  The following definitions restate that fold and
give reference functions its behaviour is compared against. -/

def finalizeInit : ReconState := ⟨[], [], [], [], []⟩

/-- The fold of `addFinalEntry` over the `(normalized path, processed
result)` pairs a reconciliation pass produces, from the empty state. -/
def finalizeFold (l : List (String × StreamResult)) : ReconState :=
  l.foldl (fun st pr => addFinalEntry st pr.1 pr.2) finalizeInit

/-- Replace the first entry with the given path, else append. -/
def upsertEntry : List FileEntry → FileEntry → List FileEntry
  | [], e => [e]
  | x :: xs, e => if x.path = e.path then e :: xs else x :: upsertEntry xs e

/-- First-occurrence deduplication of a list of paths. -/
def nubFirst : List String → List String
  | [] => []
  | p :: rest => p :: nubFirst (rest.filter (fun q => ¬ q = p))
termination_by l => l.length
decreasing_by
  simp only [List.length_cons]
  exact Nat.lt_succ_of_le (List.length_filter_le _ _)

/-- The unique manifest entry carrying a given path, if any. -/
def lookupEntry (es : List FileEntry) (p : String) : Option FileEntry :=
  es.find? (fun e => e.path = p)

/-- The `seenPaths` map the loop maintains: each entry's path keyed to
its index, starting from `k`. -/
def pathIdxAux (k : Nat) : List FileEntry → List (String × Nat)
  | [] => []
  | e :: es => (e.path, k) :: pathIdxAux (k + 1) es

def pathIdx (es : List FileEntry) : List (String × Nat) := pathIdxAux 0 es

/-- The final-entries list the whole fold produces. -/
def upsertAll (l : List (String × StreamResult)) : List FileEntry :=
  l.foldl (fun es pr => upsertEntry es ⟨pr.1, pr.2.sha256, pr.2.size⟩) []

/-- The path list evolution of the fold: keep when seen, append when new. -/
def seenFold (seen : List String) : List String → List String
  | [] => seen
  | p :: ps => if p ∈ seen then seenFold seen ps else seenFold (seen ++ [p]) ps

/-- The duplicate warnings the fold emits, given the paths already seen. -/
def warnAux (seen : List String) : List (String × StreamResult) → List String
  | [] => []
  | (p, _) :: rest =>
      if p ∈ seen then dupMsg p :: warnAux seen rest
      else warnAux (seen ++ [p]) rest

/-- Is an effect an object commit? -/
def effIsCommit : Eff → Bool
  | .commitObject _ => true
  | _ => false

/-- The effect trace of a streaming-phase outcome (error outcomes carry
the state at the point of failure). -/
def effsOfStream : Except (StreamPhase × String) StreamPhase → List Eff
  | .ok st => st.effs
  | .error (st, _) => st.effs

/-- The effect trace of a reconciliation-phase outcome. -/
def effsOfRecon : Except (ReconState × String) ReconState → List Eff
  | .ok st => st.effs
  | .error (st, _) => st.effs

/-- Scan a trace left to right: every `writeRef` must be preceded by some
`storeManifest`. -/
def refAfterManifestAux (seenManifest : Bool) : List Eff → Bool
  | [] => true
  | .writeRef _ _ :: rest => seenManifest && refAfterManifestAux seenManifest rest
  | .storeManifest _ _ :: rest => refAfterManifestAux true rest
  | .commitObject _ :: rest => refAfterManifestAux seenManifest rest

def refAfterManifest (l : List Eff) : Bool := refAfterManifestAux false l

/-! # Theorems -/

/-! ## Bitwise arithmetic lemmas -/

theorem xorN_lt (n : Nat) : ∀ a b, xorN n a b < 2 ^ n := by
  induction n with
  | zero => intro a b; simp [xorN]
  | succ n ih =>
      intro a b
      have h := ih (a / 2) (b / 2)
      simp only [xorN, pow_succ]
      split <;> omega

theorem mod_two_pow_succ (a n : Nat) : a % 2 ^ (n + 1) = a % 2 + 2 * (a / 2 % 2 ^ n) := by
  have hq : a = 2 * (a / 2) + a % 2 := by omega
  have hm : (2 : Nat) ^ (n + 1) = 2 * 2 ^ n := by ring
  conv_lhs => rw [hq, hm]
  have h1 : (2 * (a / 2) + a % 2) % (2 * 2 ^ n)
      = ((2 * (a / 2)) % (2 * 2 ^ n) + (a % 2) % (2 * 2 ^ n)) % (2 * 2 ^ n) :=
    Nat.add_mod _ _ _
  have h2 : (2 * (a / 2)) % (2 * 2 ^ n) = 2 * (a / 2 % 2 ^ n) := Nat.mul_mod_mul_left _ _ _
  have hp : (0 : Nat) < 2 ^ n := Nat.pos_pow_of_pos n (by omega)
  have h3 : (a % 2) % (2 * 2 ^ n) = a % 2 := Nat.mod_eq_of_lt (by omega)
  have h4 : 2 * (a / 2 % 2 ^ n) + a % 2 < 2 * 2 ^ n := by
    have := Nat.mod_lt (a / 2) hp
    omega
  rw [h1, h2, h3, Nat.mod_eq_of_lt h4]
  omega

theorem xorN_xorN (n : Nat) : ∀ a b, xorN n (xorN n a b) b = a % 2 ^ n := by
  induction n with
  | zero => intro a b; simp [xorN, Nat.mod_one]
  | succ n ih =>
      intro a b
      have hbit : (if a % 2 ≠ b % 2 then 1 else 0) ≤ 1 := by split <;> omega
      have hx : xorN (n + 1) a b
          = (if a % 2 ≠ b % 2 then 1 else 0) + 2 * xorN n (a / 2) (b / 2) := rfl
      have hmod : xorN (n + 1) a b % 2 = (if a % 2 ≠ b % 2 then 1 else 0) := by
        rw [hx]; omega
      have hdiv : xorN (n + 1) a b / 2 = xorN n (a / 2) (b / 2) := by
        rw [hx]; omega
      have hstep : xorN (n + 1) (xorN (n + 1) a b) b
          = (if xorN (n + 1) a b % 2 ≠ b % 2 then 1 else 0)
            + 2 * xorN n (xorN (n + 1) a b / 2) (b / 2) := rfl
      rw [hstep, hmod, hdiv, ih]
      have ha : a % 2 = 0 ∨ a % 2 = 1 := Nat.mod_two_eq_zero_or_one a
      have hb : b % 2 = 0 ∨ b % 2 = 1 := Nat.mod_two_eq_zero_or_one b
      rw [mod_two_pow_succ]
      rcases ha with ha | ha <;> rcases hb with hb | hb <;> simp [ha, hb]

theorem xor32_lt (a b : Nat) : xor32 a b < 2 ^ 32 := xorN_lt 32 a b

theorem xor32_xor32 (a b : Nat) (h : a < 2 ^ 32) : xor32 (xor32 a b) b = a := by
  unfold xor32
  rw [xorN_xorN, Nat.mod_eq_of_lt h]

/-! ## CRC-32 composition (claim C8) -/

theorem crc32Byte_lt (crc b : Nat) : crc32Byte crc b < 2 ^ 32 := xor32_lt _ _

theorem foldl_crc32Byte_lt (l : List Nat) (x : Nat) (h : x < 2 ^ 32) :
    l.foldl crc32Byte x < 2 ^ 32 := by
  induction l generalizing x with
  | nil => simpa using h
  | cons b rest ih =>
      rw [List.foldl_cons]
      exact ih _ (crc32Byte_lt x b)

theorem crc32Update_lt (crc : Nat) (buf : List Nat) : crc32Update crc buf < 2 ^ 32 :=
  xor32_lt _ _

theorem crc32Update_append (crc : Nat) (a b : List Nat) :
    crc32Update crc (a ++ b) = crc32Update (crc32Update crc a) b := by
  unfold crc32Update
  rw [List.foldl_append,
    xor32_xor32 (a.foldl crc32Byte (xor32 crc 0xFFFFFFFF)) 0xFFFFFFFF
      (foldl_crc32Byte_lt a (xor32 crc 0xFFFFFFFF) (xor32_lt crc 0xFFFFFFFF))]

set_option maxRecDepth 4000 in
set_option maxHeartbeats 1000000 in
/-- Claim C8 — folding `crc32Update` over any partition of a byte
sequence into chunks, starting from `0`, equals one `crc32Update` pass
over the whole sequence (the spec's own definition of the standard
CRC-32), and the result matches the standard CRC-32 check value on the
bytes of `"123456789"`. -/
theorem crc32_fold_chunks_eq :
    (∀ chunks : List (List Nat),
        chunks.foldl crc32Update 0 = crc32Update 0 chunks.flatten) ∧
      crc32Update 0 (utf8Encode "123456789") = 0xCBF43926 := by
  constructor
  · have aux : ∀ (chunks : List (List Nat)) (acc : Nat), acc < 2 ^ 32 →
        chunks.foldl crc32Update acc = crc32Update acc chunks.flatten := by
      intro chunks
      induction chunks with
      | nil =>
          intro acc hacc
          simp only [List.foldl_nil, List.flatten_nil]
          unfold crc32Update
          simp only [List.foldl_nil]
          rw [xor32_xor32 _ _ hacc]
      | cons c rest ih =>
          intro acc hacc
          simp only [List.foldl_cons, List.flatten_cons]
          rw [ih _ (crc32Update_lt acc c), ← crc32Update_append]
    intro chunks
    exact aux chunks 0 (by norm_num)
  · decide

/-! ## Local-header / data-descriptor cross-checks (claim C5) -/

/-- Claim C5, counterexample — an entry whose LFH advertises a non-zero
wrong `uncompressed_size` *and* a non-zero wrong `crc32` fails with the
size error, not the CRC error, although the claim's CRC condition holds;
so "fails with 'CRC mismatch (local header)' iff the LFH advertised a
non-zero crc32 that differs" is false. -/
theorem checkLocalHeader_crc_iff_false :
    checkLocalHeader 1 1 ⟨"h", 2, 2⟩ = .error "Size mismatch (local header)" ∧
      checkLocalHeader 1 1 ⟨"h", 2, 2⟩ ≠ .error "CRC mismatch (local header)" ∧
      (1 : Nat) ≠ 0 ∧ (1 : Nat) ≠ (⟨"h", 2, 2⟩ : StreamResult).crc32 := by
  refine ⟨rfl, ?_, by decide, by decide⟩
  intro h
  rw [show checkLocalHeader 1 1 ⟨"h", 2, 2⟩
      = .error "Size mismatch (local header)" from rfl] at h
  exact absurd (Except.error.inj h) (by decide)

/-- Claim C5 as amended — exact characterization of both cross-checks:
without a data descriptor, the size error occurs iff a non-zero advertised
size differs; the CRC error occurs iff the size check passed and a
non-zero advertised CRC differs (zero advertised values are never
checked).  With a data descriptor, the size error occurs iff the
descriptor size differs, and the CRC error iff the size matched and the
descriptor CRC differs. -/
theorem checkLocalHeader_checkDD_characterization :
    ∀ (u c : Nat) (r : StreamResult) (dd : DataDescriptor),
      (checkLocalHeader u c r = .error "Size mismatch (local header)" ↔
        u ≠ 0 ∧ u ≠ r.size) ∧
      (checkLocalHeader u c r = .error "CRC mismatch (local header)" ↔
        (u = 0 ∨ u = r.size) ∧ c ≠ 0 ∧ c ≠ r.crc32) ∧
      (checkLocalHeader u c r = .ok () ↔
        (u = 0 ∨ u = r.size) ∧ (c = 0 ∨ c = r.crc32)) ∧
      (checkDataDescriptor dd r = .error "Size mismatch (DD)" ↔
        dd.uncompressedSize ≠ r.size) ∧
      (checkDataDescriptor dd r = .error "CRC mismatch (DD)" ↔
        dd.uncompressedSize = r.size ∧ dd.crc32 ≠ r.crc32) ∧
      (checkDataDescriptor dd r = .ok () ↔
        dd.uncompressedSize = r.size ∧ dd.crc32 = r.crc32) := by
  intro u c r dd
  have hs : "Size mismatch (local header)" ≠ "CRC mismatch (local header)" := by decide
  have hd : "Size mismatch (DD)" ≠ "CRC mismatch (DD)" := by decide
  unfold checkLocalHeader checkDataDescriptor
  by_cases h1 : u ≠ 0 ∧ u ≠ r.size <;> by_cases h2 : c ≠ 0 ∧ c ≠ r.crc32 <;>
    by_cases h3 : dd.uncompressedSize = r.size <;> by_cases h4 : dd.crc32 = r.crc32 <;>
      simp [h1, h2, h3, h4, hs, hd, hs.symm, hd.symm] <;> tauto

/-! ## Path normalization (claim C6) -/

/-- Claim C6, counterexample — `'\windows\path\z.txt'` does *not*
normalize to `'windows/path/z.txt'`: backslash replacement happens before
the absolute-path check, so the leading backslash becomes a leading `/`
and the name is rejected as absolute. -/
theorem normalizeZipPath_backslash_false :
    normalizeZipPath "\\windows\\path\\z.txt" = .error "Absolute paths not allowed" ∧
      normalizeZipPath "\\windows\\path\\z.txt" ≠ .ok "windows/path/z.txt" := by
  refine ⟨by decide, by decide⟩

theorem checkParts_mem (l : List String) (out : List String)
    (h : checkParts l = .ok out) : ∀ s ∈ out, s ≠ "" ∧ s ≠ "." ∧ s ≠ ".." := by
  induction l generalizing out with
  | nil =>
      simp only [checkParts] at h
      cases h
      intro s hs
      simp at hs
  | cons part rest ih =>
      simp only [checkParts] at h
      split at h
      · rename_i hcase
        intro s hs
        exact ih out h s hs
      · split at h
        · cases h
        · rename_i h1 h2
          cases hrest : checkParts rest with
          | error e => rw [hrest] at h; cases h
          | ok out' =>
              rw [hrest] at h
              cases h
              intro s hs
              rcases List.mem_cons.mp hs with hs | hs
              · subst hs
                exact ⟨fun he => h1 (Or.inl he), fun he => h1 (Or.inr he), h2⟩
              · exact ih out' hrest s hs

theorem normalizeZipPath_ok_parts (p out : String)
    (h : normalizeZipPath p = .ok out) :
    ∃ parts : List String, out = String.intercalate "/" parts ∧
      ∀ s ∈ parts, s ≠ "" ∧ s ≠ "." ∧ s ≠ ".." := by
  unfold normalizeZipPath at h
  split at h
  · cases h
  · split at h
    · cases h
    · split at h
      · cases h
      · rename_i parts hcp
        cases h
        exact ⟨parts, rfl, checkParts_mem _ _ hcp⟩

/-- Claim C6 as amended — path normalization rejects NUL, replaces every
backslash with `/` *before* the absolute check (so a leading backslash is
rejected as absolute: `'\windows\path\z.txt'` fails while
`'windows\path\z.txt'` normalizes to `'windows/path/z.txt'`), strips
leading `./`, rejects leading `/`, drops empty and `.` components,
rejects `..`, and rejoins with `/` (an empty result drops the entry). -/
theorem normalizeZipPath_spec :
    (∀ p : String, p.data.contains (Char.ofNat 0) = true →
        normalizeZipPath p = .error "Invalid filename (NUL)") ∧
      normalizeZipPath "windows\\path\\z.txt" = .ok "windows/path/z.txt" ∧
      normalizeZipPath "\\windows\\path\\z.txt" = .error "Absolute paths not allowed" ∧
      normalizeZipPath "/abs.txt" = .error "Absolute paths not allowed" ∧
      normalizeZipPath "./x/../y.txt" = .error "Parent path not allowed" ∧
      normalizeZipPath "././a/./b//c" = .ok "a/b/c" ∧
      normalizeZipPath "dir/" = .ok "dir" ∧
      normalizeZipPath "" = .ok "" ∧
      (∀ p out, normalizeZipPath p = .ok out →
        ∃ parts : List String, out = String.intercalate "/" parts ∧
          ∀ s ∈ parts, s ≠ "" ∧ s ≠ "." ∧ s ≠ "..") := by
  refine ⟨?_, by decide, by decide, by decide, by decide, by decide, by decide, by decide,
    normalizeZipPath_ok_parts⟩
  intro p hnul
  unfold normalizeZipPath
  rw [if_pos hnul]

/-- Witness for `normalizeZipPath_spec` at concrete inputs: a name
carrying a NUL byte is rejected, and a concrete accepted name decomposes
into valid components. -/
theorem normalizeZipPath_spec_witness :
    normalizeZipPath "a\x00b" = .error "Invalid filename (NUL)" ∧
      ∃ parts : List String, "x/y" = String.intercalate "/" parts ∧
        ∀ s ∈ parts, s ≠ "" ∧ s ≠ "." ∧ s ≠ ".." :=
  ⟨normalizeZipPath_spec.1 "a\x00b" (by decide),
    normalizeZipPath_spec.2.2.2.2.2.2.2.2 "x/y" "x/y" (by decide)⟩

/-! ## Conditional `GET /objects/{sha}` (claim C9) -/

/-- Claim C9 — when the `If-None-Match` header (comma-split, trimmed)
contains `"sha256:<sha>"`, the handler answers `304` with only the ETag
header, regardless of whether the object exists and of `Accept-Encoding`
(the conditional is evaluated before the existence check); `404` is
reachable only when the conditional does not match. -/
theorem handleGetObject_conditional_first :
    ∀ (sha inm ae : String) (objExists : Bool),
      (sha ≠ "" → inm ≠ "" →
        ((jsSplit ',' inm).map jsTrim).contains ("\"sha256:" ++ sha ++ "\"") = true →
        handleGetObject sha inm ae objExists =
          ⟨304, [("etag", "\"sha256:" ++ sha ++ "\"")], ""⟩) ∧
      ((handleGetObject sha inm ae objExists).status = 404 →
        ¬ (inm ≠ "" ∧
          ((jsSplit ',' inm).map jsTrim).contains ("\"sha256:" ++ sha ++ "\"") = true)) := by
  intro sha inm ae objExists
  constructor
  · intro hsha hinm hcont
    unfold handleGetObject
    rw [if_neg hsha, if_pos ⟨hinm, hcont⟩]
  · intro h404 hmatch
    unfold handleGetObject at h404
    by_cases hsha : sha = ""
    · rw [if_pos hsha] at h404
      simp at h404
    · rw [if_neg hsha, if_pos hmatch] at h404
      simp at h404

/-- Witness for `handleGetObject_conditional_first`: a matching
`If-None-Match` on a *missing* object still gets `304` with only the
ETag header, and a concrete `404` response implies no match. -/
theorem handleGetObject_conditional_first_witness :
    handleGetObject "d1" "x, \"sha256:d1\"" "" false =
        ⟨304, [("etag", "\"sha256:d1\"")], ""⟩ ∧
      ¬ ((("\"sha256:no\"" : String) ≠ "" ∧
        ((jsSplit ',' ("\"sha256:no\"" : String)).map jsTrim).contains
          ("\"sha256:" ++ "x" ++ "\"") = true)) :=
  ⟨(handleGetObject_conditional_first "d1" "x, \"sha256:d1\"" "" false).1
      (by decide) (by decide) (by decide),
    (handleGetObject_conditional_first "x" "\"sha256:no\"" "" false).2 (by decide)⟩

/-! ## EOCD search window (claim C2) -/

theorem byteAt_drop (data : List Nat) (s i : Nat) :
    byteAt (data.drop s) i = byteAt data (s + i) := by
  simp [byteAt, List.getD_eq_getElem?_getD, List.getElem?_drop]

theorem readU32LE_drop (data : List Nat) (s i : Nat) :
    readU32LE (data.drop s) i = readU32LE data (s + i) := by
  simp only [readU32LE, byteAt_drop, Nat.add_assoc]

theorem scanBackAux_isSome (tail : List Nat) (k : Nat) :
    (scanBackAux tail k).isSome = true ↔ ∃ i < k, readU32LE tail i = EOCD_SIG := by
  induction k with
  | zero => simp [scanBackAux]
  | succ k ih =>
      simp only [scanBackAux]
      split
      · rename_i hsig
        simp only [Option.isSome_some, true_iff]
        exact ⟨k, Nat.lt_succ_self k, hsig⟩
      · rename_i hsig
        rw [ih]
        constructor
        · rintro ⟨i, hi, hs⟩
          exact ⟨i, Nat.lt_succ_of_lt hi, hs⟩
        · rintro ⟨i, hi, hs⟩
          refine ⟨i, ?_, hs⟩
          rcases Nat.lt_succ_iff_lt_or_eq.mp hi with hlt | heq
          · exact hlt
          · subst heq; exact absurd hs hsig

theorem scanBackEOCD_isSome (tail : List Nat) :
    (scanBackEOCD tail).isSome = true ↔
      ∃ i, i + 22 ≤ tail.length ∧ readU32LE tail i = EOCD_SIG := by
  unfold scanBackEOCD
  split
  · rename_i hlt
    simp only [Option.isSome_none, Bool.false_eq_true, false_iff]
    rintro ⟨i, hi, _⟩
    omega
  · rename_i hge
    rw [scanBackAux_isSome]
    constructor
    · rintro ⟨i, hi, hs⟩
      exact ⟨i, by omega, hs⟩
    · rintro ⟨i, hi, hs⟩
      exact ⟨i, by omega, hs⟩

theorem eocdWindowStart_le (n : Nat) : eocdWindowStart n ≤ n := by
  unfold eocdWindowStart; split <;> omega

theorem eocdWindowStart_ge (n : Nat) : n ≤ eocdWindowStart n + 65558 := by
  unfold eocdWindowStart; split <;> omega

theorem eocdWindowStart_lower (n j : Nat) (h : n ≤ j + 65558) :
    eocdWindowStart n ≤ j := by
  unfold eocdWindowStart; split <;> omega

/-- Claim C2 as amended — the reader searches the last
`min(filesize, 65558)` bytes (the code's window is `0x10000 + 22`, one
byte larger than the claim's 65557), and the EOCD signature is found iff
it starts at least 22 bytes before EOF inside that window; otherwise the
reader fails with `'EOCD not found'`. -/
theorem locateEOCD_window :
    (∀ data : List Nat, (locateEOCD data).isSome = true ↔
      ∃ i, i + 22 ≤ data.length ∧ data.length ≤ i + 65558 ∧
        readU32LE data i = EOCD_SIG) ∧
    (∀ (ext : ExternalCodecs) (data : List Nat), locateEOCD data = none →
      readCentralDirectory ext data = .error "EOCD not found") := by
  constructor
  · intro data
    constructor
    · intro h
      have h2 : (scanBackEOCD (data.drop (eocdWindowStart data.length))).isSome = true := by
        cases hscan : scanBackEOCD (data.drop (eocdWindowStart data.length)) with
        | none => unfold locateEOCD at h; rw [hscan] at h; simp at h
        | some i => simp
      rw [scanBackEOCD_isSome] at h2
      obtain ⟨i, hi, hs⟩ := h2
      rw [List.length_drop] at hi
      rw [readU32LE_drop] at hs
      have hle := eocdWindowStart_le data.length
      have hge := eocdWindowStart_ge data.length
      exact ⟨eocdWindowStart data.length + i, by omega, by omega, hs⟩
    · rintro ⟨j, hj22, hjw, hs⟩
      have hjs : eocdWindowStart data.length ≤ j := eocdWindowStart_lower _ _ hjw
      have hle := eocdWindowStart_le data.length
      have h2 : (scanBackEOCD (data.drop (eocdWindowStart data.length))).isSome = true := by
        rw [scanBackEOCD_isSome]
        refine ⟨j - eocdWindowStart data.length, ?_, ?_⟩
        · rw [List.length_drop]; omega
        · rw [readU32LE_drop, Nat.add_sub_cancel' hjs]; exact hs
      obtain ⟨i, hi⟩ := Option.isSome_iff_exists.mp h2
      unfold locateEOCD
      rw [hi]
      rfl
  · intro ext data h
    unfold readCentralDirectory
    rw [h]
    rfl

/-- Witness for `locateEOCD_window`: the empty spool file has no EOCD
inside its window, and the reader reports `'EOCD not found'` on it. -/
theorem locateEOCD_window_witness :
    readCentralDirectory unusedCodecs [] = .error "EOCD not found" :=
  locateEOCD_window.2 unusedCodecs [] rfl

/-- Claim C2, counterexample — a 4-byte spool file consisting of exactly
the EOCD signature: the signature lies inside the last
`min(filesize, 65557)` bytes (it starts at offset 0), yet the scan never
finds it (the loop starts at `tail.length - 22 < 0`), so "found iff the
signature lies within that window" is false; the reader fails with
`'EOCD not found'`. -/
theorem locateEOCD_claim_false :
    readU32LE [0x50, 0x4b, 0x05, 0x06] 0 = EOCD_SIG ∧
      (0 : Nat) + 4 ≤ 4 ∧ (4 : Nat) ≤ 0 + 65557 ∧
      locateEOCD [0x50, 0x4b, 0x05, 0x06] = none ∧
      readCentralDirectory unusedCodecs [0x50, 0x4b, 0x05, 0x06] =
        .error "EOCD not found" := by
  refine ⟨by decide, by decide, by decide, rfl, rfl⟩

/-! ## Fileset id (claim C3) -/

theorem utf8Encode_append (a b : String) :
    utf8Encode (a ++ b) = utf8Encode a ++ utf8Encode b := by
  unfold utf8Encode
  rw [String.data_append, List.map_append, List.flatten_append]

set_option maxRecDepth 10000 in
set_option maxHeartbeats 2000000 in
/-- Claim C3 — the fileset id is the SHA-256 of the UTF-8 bytes of
`"v1 "` concatenated with the canonical string (path + `" sha256:"` +
hash + `" "` + size + `"\n"` per sorted entry); ingesting the ZIP with no
entries yields `files = []`, `file_count = 0`, `total_bytes = 0` and
`fileset_id = SHA-256("v1 ")`, whose hex digest is
`51aa814f6b8cfaf3f91b6e7e49149dd403942d284e255ce4a5e28fb44dc6a163`. -/
theorem filesetId_formula_and_empty :
    (∀ (es : List FileEntry) (ws : List String),
        (buildManifest es ws).fileset_id =
          sha256Hex (utf8Encode ("v1 " ++ canonicalString es))) ∧
      (∀ (ext : ExternalCodecs) (updateRef : Option String),
        (uploadZipAsFileset ext serverLimits updateRef emptyZipBytes).2 =
          .ok { filesetId :=
                  "51aa814f6b8cfaf3f91b6e7e49149dd403942d284e255ce4a5e28fb44dc6a163"
                manifest :=
                  { fileset_id :=
                      "51aa814f6b8cfaf3f91b6e7e49149dd403942d284e255ce4a5e28fb44dc6a163"
                    file_count := 0
                    total_bytes := 0
                    files := []
                    warnings := [] }
                updatedRef := updateRef }) ∧
      sha256Hex (utf8Encode "v1 ") =
        "51aa814f6b8cfaf3f91b6e7e49149dd403942d284e255ce4a5e28fb44dc6a163" := by
  refine ⟨?_, ?_, ?_⟩
  · intro es ws
    simp only [buildManifest, filesetIdOf, utf8Encode_append]
  · intro ext updateRef
    rfl
  · rfl

/-! ## Entry cap only during streaming (claim C10) -/

set_option maxRecDepth 10000 in
set_option maxHeartbeats 2000000 in
/-- Claim C10 — the `'Too many entries'` cap is enforced only in the
streaming loop.  `deferredZipBytes` has three entries whose first is
STORE with a data descriptor: the streaming phase counts one entry,
defers it with a warning, stops at its payload bytes, and the
reconciliation loop then ingests all three entries from the spool with no
count check — so with `maxEntries = 1` the ingest still succeeds with a
3-file manifest.  The external decoders are never consulted (they are the
always-failing `unusedCodecs`), so the archive is processed entirely by
the STORE fallback path. -/
theorem maxEntries_only_streaming :
    (uploadZipAsFileset unusedCodecs smallLimits none deferredZipBytes).2.map
        (fun r => (r.manifest.file_count, r.manifest.warnings)) =
      .ok (3, ["Deferred STORE+DD at offset 0"]) ∧
      smallLimits.maxEntries = 1 ∧ smallLimits.maxEntries < 3 :=
  ⟨by decide, rfl, by decide⟩

/-! ## Duplicate handling: the `addFinalEntry` fold (claims C7 and C1) -/

theorem upsertEntry_map_path (es : List FileEntry) (e : FileEntry) :
    (upsertEntry es e).map FileEntry.path =
      if e.path ∈ es.map FileEntry.path then es.map FileEntry.path
      else es.map FileEntry.path ++ [e.path] := by
  induction es with
  | nil => simp [upsertEntry]
  | cons x xs ih =>
      simp only [upsertEntry]
      by_cases hx : x.path = e.path
      · rw [if_pos hx]
        simp [hx.symm]
      · rw [if_neg hx]
        simp only [List.map_cons, ih]
        by_cases hmem : e.path ∈ xs.map FileEntry.path
        · rw [if_pos hmem, if_pos (List.mem_cons_of_mem _ hmem)]
        · rw [if_neg hmem, if_neg ?_]
          · simp
          · intro hc
            rcases List.mem_cons.mp hc with hc | hc
            · exact hx hc.symm
            · exact hmem hc

theorem upsertEntry_not_mem (es : List FileEntry) (e : FileEntry)
    (h : e.path ∉ es.map FileEntry.path) : upsertEntry es e = es ++ [e] := by
  induction es with
  | nil => rfl
  | cons x xs ih =>
      simp only [upsertEntry]
      rw [if_neg ?_, ih ?_]
      · rfl
      · intro hc
        exact h (List.mem_cons_of_mem _ hc)
      · intro hc
        exact h (by simp [hc.symm])

theorem pathIdxAux_congr (es es' : List FileEntry)
    (h : es.map FileEntry.path = es'.map FileEntry.path) :
    ∀ k, pathIdxAux k es = pathIdxAux k es' := by
  induction es generalizing es' with
  | nil =>
      cases es' with
      | nil => intro k; rfl
      | cons y ys => simp at h
  | cons x xs ih =>
      cases es' with
      | nil => simp at h
      | cons y ys =>
          simp only [List.map_cons, List.cons.injEq] at h
          intro k
          simp only [pathIdxAux, h.1, ih ys h.2]

theorem pathIdxAux_append (es : List FileEntry) (e : FileEntry) :
    ∀ k, pathIdxAux k (es ++ [e]) = pathIdxAux k es ++ [(e.path, k + es.length)] := by
  induction es with
  | nil => intro k; simp [pathIdxAux]
  | cons x xs ih =>
      intro k
      have harith : k + 1 + xs.length = k + (xs.length + 1) := by omega
      simp only [List.cons_append, pathIdxAux, List.append_eq, ih (k + 1),
        List.length_cons, harith]

theorem assocGet_pathIdxAux_none (es : List FileEntry) (p : String) :
    ∀ k, assocGet (pathIdxAux k es) p = none ↔ p ∉ es.map FileEntry.path := by
  induction es with
  | nil => intro k; simp [pathIdxAux, assocGet]
  | cons x xs ih =>
      intro k
      simp only [pathIdxAux, assocGet, List.map_cons, List.mem_cons]
      by_cases hx : x.path = p
      · rw [if_pos hx]
        simp [hx]
      · rw [if_neg hx]
        rw [ih (k + 1)]
        constructor
        · intro hmem hc
          rcases hc with hc | hc
          · exact hx hc.symm
          · exact hmem hc
        · intro hmem hc
          exact hmem (Or.inr hc)

theorem assocGet_pathIdxAux_set (es : List FileEntry) (e : FileEntry) :
    ∀ k i, assocGet (pathIdxAux k es) e.path = some i →
      k ≤ i ∧ es.set (i - k) e = upsertEntry es e := by
  induction es with
  | nil => intro k i h; cases h
  | cons x xs ih =>
      intro k i h
      simp only [pathIdxAux, assocGet] at h
      by_cases hx : x.path = e.path
      · rw [if_pos hx] at h
        cases h
        refine ⟨Nat.le_refl _, ?_⟩
        rw [Nat.sub_self]
        simp only [upsertEntry, if_pos hx, List.set]
      · rw [if_neg hx] at h
        obtain ⟨hk, hset⟩ := ih (k + 1) i h
        refine ⟨by omega, ?_⟩
        have hik : i - k = (i - (k + 1)) + 1 := by omega
        rw [hik, List.set_cons_succ, hset]
        simp only [upsertEntry, if_neg hx]

theorem addFinalEntry_spec (st : ReconState) (p : String) (r : StreamResult)
    (h : st.seenPaths = pathIdx st.finalEntries) :
    (addFinalEntry st p r).seenPaths = pathIdx (addFinalEntry st p r).finalEntries ∧
      (addFinalEntry st p r).finalEntries =
        upsertEntry st.finalEntries ⟨p, r.sha256, r.size⟩ ∧
      (addFinalEntry st p r).warnings = st.warnings ++
        (if p ∈ st.finalEntries.map FileEntry.path then [dupMsg p] else []) ∧
      (addFinalEntry st p r).processed = st.processed ∧
      (addFinalEntry st p r).effs = st.effs := by
  unfold addFinalEntry
  rw [h]
  cases hget : assocGet (pathIdx st.finalEntries) p with
  | none =>
      have hmem : p ∉ st.finalEntries.map FileEntry.path :=
        (assocGet_pathIdxAux_none _ _ 0).mp hget
      have hup : upsertEntry st.finalEntries ⟨p, r.sha256, r.size⟩
          = st.finalEntries ++ [⟨p, r.sha256, r.size⟩] :=
        upsertEntry_not_mem _ _ hmem
      refine ⟨?_, by simp [hup], by rw [if_neg hmem]; simp, rfl, rfl⟩
      simp only [h, pathIdx, pathIdxAux_append, Nat.zero_add]
  | some idx =>
      have hmem : p ∈ st.finalEntries.map FileEntry.path := by
        by_contra hc
        rw [← assocGet_pathIdxAux_none st.finalEntries p 0] at hc
        rw [show pathIdx st.finalEntries = pathIdxAux 0 st.finalEntries from rfl] at hget
        rw [hc] at hget
        cases hget
      obtain ⟨hk, hset⟩ :=
        assocGet_pathIdxAux_set st.finalEntries ⟨p, r.sha256, r.size⟩ 0 idx hget
      rw [Nat.sub_zero] at hset
      have hpaths : (upsertEntry st.finalEntries ⟨p, r.sha256, r.size⟩).map FileEntry.path
          = st.finalEntries.map FileEntry.path := by
        rw [upsertEntry_map_path, if_pos hmem]
      refine ⟨?_, by simp [hset], by rw [if_pos hmem], rfl, rfl⟩
      simp only [h, hset, pathIdx]
      exact (pathIdxAux_congr _ _ hpaths 0).symm

theorem finalizeFold_spec (l : List (String × StreamResult)) :
    ∀ st : ReconState, st.seenPaths = pathIdx st.finalEntries →
      (l.foldl (fun st pr => addFinalEntry st pr.1 pr.2) st).seenPaths =
          pathIdx ((l.foldl (fun st pr => addFinalEntry st pr.1 pr.2) st).finalEntries) ∧
        (l.foldl (fun st pr => addFinalEntry st pr.1 pr.2) st).finalEntries =
          l.foldl (fun es pr => upsertEntry es ⟨pr.1, pr.2.sha256, pr.2.size⟩)
            st.finalEntries ∧
        (l.foldl (fun st pr => addFinalEntry st pr.1 pr.2) st).warnings =
          st.warnings ++ warnAux (st.finalEntries.map FileEntry.path) l ∧
        (l.foldl (fun st pr => addFinalEntry st pr.1 pr.2) st).processed = st.processed ∧
        (l.foldl (fun st pr => addFinalEntry st pr.1 pr.2) st).effs = st.effs := by
  induction l with
  | nil =>
      intro st h
      simp [warnAux, h]
  | cons pr rest ih =>
      obtain ⟨p, r⟩ := pr
      intro st h
      obtain ⟨s1, s2, s3, s4, s5⟩ := addFinalEntry_spec st p r h
      simp only [List.foldl_cons]
      obtain ⟨i1, i2, i3, i4, i5⟩ := ih (addFinalEntry st p r) s1
      refine ⟨i1, ?_, ?_, by rw [i4, s4], by rw [i5, s5]⟩
      · rw [i2, s2]
      · rw [i3, s3, s2, upsertEntry_map_path]
        simp only [warnAux]
        by_cases hmem : p ∈ st.finalEntries.map FileEntry.path
        · simp only [if_pos hmem, List.append_assoc, List.singleton_append]
        · simp only [if_neg hmem, List.append_nil]

theorem foldl_upsert_map_path (l : List (String × StreamResult)) :
    ∀ es : List FileEntry,
      (l.foldl (fun es pr => upsertEntry es ⟨pr.1, pr.2.sha256, pr.2.size⟩) es).map
          FileEntry.path =
        seenFold (es.map FileEntry.path) (l.map Prod.fst) := by
  induction l with
  | nil => intro es; rfl
  | cons pr rest ih =>
      obtain ⟨p, r⟩ := pr
      intro es
      simp only [List.foldl_cons, List.map_cons, seenFold]
      have hup := upsertEntry_map_path es ⟨p, r.sha256, r.size⟩
      rw [show (⟨p, r.sha256, r.size⟩ : FileEntry).path = p from rfl] at hup
      by_cases hmem : p ∈ es.map FileEntry.path
      · rw [if_pos hmem, ih, hup, if_pos hmem]
      · rw [if_neg hmem, ih, hup, if_neg hmem]

theorem seenFold_eq_nubFirst (ps : List String) :
    ∀ seen, seenFold seen ps =
      seen ++ nubFirst (ps.filter (fun p => decide (¬ p ∈ seen))) := by
  induction ps with
  | nil => intro seen; simp [seenFold, nubFirst]
  | cons p ps ih =>
      intro seen
      simp only [seenFold]
      by_cases hmem : p ∈ seen
      · rw [if_pos hmem, ih seen, List.filter_cons_of_neg (by simp [hmem])]
      · rw [if_neg hmem, ih (seen ++ [p]),
          List.filter_cons_of_pos (by simp [hmem])]
        rw [show nubFirst (p :: ps.filter (fun q => decide (¬ q ∈ seen)))
          = p :: nubFirst ((ps.filter (fun q => decide (¬ q ∈ seen))).filter
              (fun q => decide (¬ q = p))) from by rw [nubFirst]]
        rw [List.filter_filter]
        have hpred : ∀ q ∈ ps, (decide (¬ q = p) && decide (¬ q ∈ seen))
            = decide (¬ q ∈ seen ++ [p]) := by
          intro q _
          by_cases h1 : q = p <;> by_cases h2 : q ∈ seen <;> simp [h1, h2]
        rw [List.filter_congr hpred]
        simp

theorem nubFirst_subset (n : Nat) :
    ∀ ps : List String, ps.length ≤ n → ∀ q, q ∈ nubFirst ps → q ∈ ps := by
  induction n with
  | zero =>
      intro ps hlen q hq
      cases ps with
      | nil => rw [nubFirst] at hq; cases hq
      | cons p rest => simp at hlen
  | succ n ih =>
      intro ps hlen q hq
      cases ps with
      | nil => rw [nubFirst] at hq; cases hq
      | cons p rest =>
          rw [nubFirst] at hq
          rcases List.mem_cons.mp hq with hq | hq
          · exact hq ▸ List.mem_cons_self _ _
          · have hlen2 : (rest.filter (fun q => decide (¬ q = p))).length ≤ n := by
              have := List.length_filter_le (fun q => decide (¬ q = p)) rest
              simp only [List.length_cons] at hlen
              omega
            have := ih _ hlen2 q hq
            exact List.mem_cons_of_mem _ (List.mem_of_mem_filter this)

theorem nubFirst_nodup (n : Nat) :
    ∀ ps : List String, ps.length ≤ n → (nubFirst ps).Nodup := by
  induction n with
  | zero =>
      intro ps hlen
      cases ps with
      | nil => rw [nubFirst]; exact List.nodup_nil
      | cons p rest => simp at hlen
  | succ n ih =>
      intro ps hlen
      cases ps with
      | nil => rw [nubFirst]; exact List.nodup_nil
      | cons p rest =>
          rw [nubFirst]
          have hlen2 : (rest.filter (fun q => decide (¬ q = p))).length ≤ n := by
            have := List.length_filter_le (fun q => decide (¬ q = p)) rest
            simp only [List.length_cons] at hlen
            omega
          refine List.nodup_cons.mpr ⟨?_, ih _ hlen2⟩
          intro hc
          have := nubFirst_subset n _ hlen2 p hc
          have := List.of_mem_filter this
          simp at this

theorem lookupEntry_upsert (es : List FileEntry) (e : FileEntry) (q : String) :
    lookupEntry (upsertEntry es e) q =
      if q = e.path then some e else lookupEntry es q := by
  induction es with
  | nil =>
      simp only [upsertEntry, lookupEntry, List.find?_cons, List.find?_nil]
      by_cases h : q = e.path
      · rw [if_pos h]
        simp [h]
      · rw [if_neg h]
        have : (decide (e.path = q)) = false := by simp; exact fun hc => h hc.symm
        simp [this]
  | cons x xs ih =>
      simp only [upsertEntry]
      by_cases hx : x.path = e.path
      · rw [if_pos hx]
        simp only [lookupEntry, List.find?_cons]
        by_cases h : q = e.path
        · subst h
          simp [hx]
        · have he : (decide (e.path = q)) = false := by
            simp; exact fun hc => h hc.symm
          have hxq : (decide (x.path = q)) = false := by
            simp [hx]; exact fun hc => h hc.symm
          simp only [he, hxq, if_neg h]
      · rw [if_neg hx]
        simp only [lookupEntry, List.find?_cons] at ih ⊢
        by_cases hxq : x.path = q
        · have hq : ¬ q = e.path := fun hc => hx (hxq.trans hc)
          simp [hxq, if_neg hq]
        · have : (decide (x.path = q)) = false := by simp [hxq]
          simp only [this]
          exact ih

theorem lookupEntry_foldl_upsert (l : List (String × StreamResult)) :
    ∀ (es : List FileEntry) (q : String),
      lookupEntry (l.foldl (fun es pr => upsertEntry es ⟨pr.1, pr.2.sha256, pr.2.size⟩) es) q
        = match l.reverse.find? (fun pr => pr.1 == q) with
          | some pr => some ⟨q, pr.2.sha256, pr.2.size⟩
          | none => lookupEntry es q := by
  induction l with
  | nil => intro es q; rfl
  | cons x xs ih =>
      intro es q
      simp only [List.foldl_cons, List.reverse_cons, List.find?_append, ih]
      cases hfind : xs.reverse.find? (fun pr => pr.1 == q) with
      | some pr => simp [Option.or]
      | none =>
          simp only [Option.or, List.find?_cons, List.find?_nil]
          by_cases hx : x.1 = q
          · have : (x.1 == q) = true := by simp [hx]
            simp only [this]
            rw [lookupEntry_upsert]
            rw [if_pos hx.symm]
            subst hx
            rfl
          · have : (x.1 == q) = false := by simp [hx]
            simp only [this]
            rw [lookupEntry_upsert]
            rw [if_neg (fun hc => hx hc.symm)]

/-! ## Collation order (claim C1) -/

theorem listCmp_eq_iff : ∀ a b : List Nat, listCmp a b = .eq ↔ a = b := by
  intro a
  induction a with
  | nil => intro b; cases b <;> simp [listCmp]
  | cons x xs ih =>
      intro b
      cases b with
      | nil => simp [listCmp]
      | cons y ys =>
          simp only [listCmp]
          by_cases h1 : x < y
          · rw [if_pos h1]
            constructor
            · intro hc; cases hc
            · intro h; injection h with h3 h4; omega
          · rw [if_neg h1]
            by_cases h2 : y < x
            · rw [if_pos h2]
              constructor
              · intro hc; cases hc
              · intro h; injection h with h3 h4; omega
            · rw [if_neg h2]
              rw [ih ys]
              have hxy : x = y := by omega
              simp [hxy]

theorem listCmp_swap : ∀ a b : List Nat, (listCmp a b).swap = listCmp b a := by
  intro a
  induction a with
  | nil => intro b; cases b <;> rfl
  | cons x xs ih =>
      intro b
      cases b with
      | nil => rfl
      | cons y ys =>
          simp only [listCmp]
          by_cases h1 : x < y
          · rw [if_pos h1, if_neg (by omega : ¬ y < x), if_pos h1]
            rfl
          · rw [if_neg h1]
            by_cases h2 : y < x
            · rw [if_pos h2, if_pos h2]
              rfl
            · rw [if_neg h2, if_neg h1, if_neg h2]
              exact ih ys

theorem listCmp_trans_lt :
    ∀ a b c : List Nat, listCmp a b = .lt → listCmp b c = .lt → listCmp a c = .lt := by
  intro a
  induction a with
  | nil =>
      intro b c hab hbc
      cases b with
      | nil => cases hab
      | cons y ys =>
          cases c with
          | nil => cases hbc
          | cons z zs => rfl
  | cons x xs ih =>
      intro b c hab hbc
      cases b with
      | nil => cases hab
      | cons y ys =>
          cases c with
          | nil => cases hbc
          | cons z zs =>
              simp only [listCmp] at hab hbc ⊢
              by_cases h1 : x < y
              · rw [if_pos h1] at hab
                by_cases h3 : y < z
                · rw [if_pos (by omega : x < z)]
                · rw [if_neg h3] at hbc
                  by_cases h4 : z < y
                  · rw [if_pos h4] at hbc; cases hbc
                  · rw [if_pos (by omega : x < z)]
              · rw [if_neg h1] at hab
                by_cases h2 : y < x
                · rw [if_pos h2] at hab; cases hab
                · rw [if_neg h2] at hab
                  by_cases h3 : y < z
                  · rw [if_pos (by omega : x < z)]
                  · rw [if_neg h3] at hbc
                    by_cases h4 : z < y
                    · rw [if_pos h4] at hbc; cases hbc
                    · rw [if_neg h4] at hbc
                      rw [if_neg (by omega : ¬ x < z), if_neg (by omega : ¬ z < x)]
                      exact ih ys zs hab hbc

theorem listCmp_ne_gt_trans :
    ∀ a b c : List Nat, listCmp a b ≠ .gt → listCmp b c ≠ .gt → listCmp a c ≠ .gt := by
  intro a b c hab hbc
  cases h1 : listCmp a b with
  | gt => exact absurd h1 hab
  | eq =>
      rw [listCmp_eq_iff] at h1
      subst h1
      exact hbc
  | lt =>
      cases h2 : listCmp b c with
      | gt => exact absurd h2 hbc
      | eq =>
          rw [listCmp_eq_iff] at h2
          subst h2
          rw [h1]
          intro hc; cases hc
      | lt =>
          rw [listCmp_trans_lt a b c h1 h2]
          intro hc; cases hc

theorem localeLe_iff (a b : String) : localeLe a b = true ↔ localeCmp a b ≠ .gt := by
  unfold localeLe
  simp

theorem localeLe_trans (a b c : String) (hab : localeLe a b = true)
    (hbc : localeLe b c = true) : localeLe a c = true := by
  rw [localeLe_iff] at hab hbc ⊢
  unfold localeCmp at hab hbc ⊢
  cases h1 : listCmp (a.data.map primaryWeight) (b.data.map primaryWeight) with
  | gt => rw [h1] at hab; exact absurd rfl hab
  | lt =>
      cases h2 : listCmp (b.data.map primaryWeight) (c.data.map primaryWeight) with
      | gt => rw [h2] at hbc; exact absurd rfl hbc
      | lt =>
          rw [listCmp_trans_lt _ _ _ h1 h2]
          intro hc; cases hc
      | eq =>
          rw [listCmp_eq_iff] at h2
          rw [← h2, h1]
          intro hc; cases hc
  | eq =>
      rw [h1] at hab
      have h1' := (listCmp_eq_iff _ _).mp h1
      cases h2 : listCmp (b.data.map primaryWeight) (c.data.map primaryWeight) with
      | gt => rw [h2] at hbc; exact absurd rfl hbc
      | lt =>
          rw [h1', h2]
          intro hc; cases hc
      | eq =>
          rw [h2] at hbc
          have h2' := (listCmp_eq_iff _ _).mp h2
          rw [h1', h2']
          rw [(listCmp_eq_iff _ _).mpr rfl]
          simp only [Ordering.then]
          exact listCmp_ne_gt_trans _ _ _ hab hbc

theorem localeLe_total (a b : String) :
    localeLe a b = true ∨ localeLe b a = true := by
  by_cases h : localeLe a b = true
  · exact Or.inl h
  · right
    rw [localeLe_iff] at h ⊢
    rw [not_not] at h
    unfold localeCmp at h ⊢
    cases h1 : listCmp (a.data.map primaryWeight) (b.data.map primaryWeight) with
    | lt => rw [h1] at h; cases h
    | gt =>
        have := listCmp_swap (a.data.map primaryWeight) (b.data.map primaryWeight)
        rw [h1] at this
        rw [← this]
        intro hc; cases hc
    | eq =>
        rw [h1] at h
        have h1' := (listCmp_eq_iff _ _).mp h1
        rw [← h1', (listCmp_eq_iff _ _).mpr rfl]
        simp only [Ordering.then] at h ⊢
        have := listCmp_swap (a.data.map tertiaryWeight) (b.data.map tertiaryWeight)
        rw [h] at this
        rw [← this]
        intro hc; cases hc

instance : IsTrans FileEntry entryLe :=
  ⟨fun _ _ _ hab hbc => localeLe_trans _ _ _ hab hbc⟩

instance : IsTotal FileEntry entryLe :=
  ⟨fun a b => localeLe_total a.path b.path⟩

/-! ## Duplicate warnings and the claim theorems for C7 and C1 -/

theorem dupMsg_inj {p q : String} (h : dupMsg p = dupMsg q) : p = q := by
  have hd := congrArg String.data h
  simp only [dupMsg, String.data_append] at hd
  exact String.ext (List.append_cancel_left (List.append_cancel_right hd))

theorem count_warnAux (l : List (String × StreamResult)) :
    ∀ (seen : List String) (p : String),
      (warnAux seen l).count (dupMsg p) =
        (l.map Prod.fst).count p - (if p ∈ seen then 0 else 1) := by
  induction l with
  | nil => intro seen p; simp [warnAux]
  | cons pr rest ih =>
      obtain ⟨q, r⟩ := pr
      intro seen p
      simp only [warnAux, List.map_cons, List.count_cons]
      by_cases hq : q ∈ seen
      · rw [if_pos hq, List.count_cons, ih seen p]
        by_cases hqp : q = p
        · subst hqp
          have hb1 : (dupMsg q == dupMsg q) = true := by simp
          have hb2 : (q == q) = true := by simp
          rw [hb1, hb2, if_pos hq]
          simp only [reduceIte]
          omega
        · have hb1 : (dupMsg q == dupMsg p) = false := by
            rw [beq_eq_false_iff_ne]
            exact fun hc => hqp (dupMsg_inj hc)
          have hb2 : (q == p) = false := by
            rw [beq_eq_false_iff_ne]; exact hqp
          rw [hb1, hb2]
          simp only [Bool.false_eq_true, if_false]
          omega
      · rw [if_neg hq, ih (seen ++ [q]) p]
        by_cases hqp : q = p
        · subst hqp
          have hb2 : (q == q) = true := by simp
          rw [hb2, if_neg hq]
          have hmem : q ∈ seen ++ [q] := by simp
          rw [if_pos hmem]
          simp only [reduceIte]
          omega
        · have hb2 : (q == p) = false := by
            rw [beq_eq_false_iff_ne]; exact hqp
          rw [hb2]
          have hmem : (p ∈ seen ++ [q]) ↔ p ∈ seen := by
            simp
            intro hc
            exact absurd hc.symm hqp
          simp only [Bool.false_eq_true, if_false]
          by_cases hp : p ∈ seen
          · rw [if_pos (hmem.mpr hp), if_pos hp]
            omega
          · rw [if_neg (fun hc => hp (hmem.mp hc)), if_neg hp]
            omega

set_option maxRecDepth 10000 in
set_option maxHeartbeats 2000000 in
/-- Claim C7 — duplicate normalized paths: for every sequence of
`(normalized path, processed result)` pairs the reconciliation loop
feeds to the duplicate handler, (a) the pre-sort entry list carries each
path once, at the position of its first occurrence; (b) the surviving
entry for a path carries the hash and size of its *last* occurrence;
(c) one `"Duplicate path: <p> (last wins)"` warning is emitted per
duplicate occurrence (`count - 1`); and (d) the concrete two-entry
`dup.txt` archive (payloads `"1"` then `"2"`) ingests to a single entry
carrying SHA-256 of `"2"` with exactly that warning. -/
theorem duplicate_paths_last_wins :
    (∀ l : List (String × StreamResult),
        (finalizeFold l).finalEntries.map FileEntry.path = nubFirst (l.map Prod.fst)) ∧
      (∀ (l : List (String × StreamResult)) (p : String),
        lookupEntry (finalizeFold l).finalEntries p =
          match l.reverse.find? (fun pr => pr.1 == p) with
          | some pr => some ⟨p, pr.2.sha256, pr.2.size⟩
          | none => none) ∧
      (∀ (l : List (String × StreamResult)) (p : String),
        (finalizeFold l).warnings.count (dupMsg p) = (l.map Prod.fst).count p - 1) ∧
      (uploadZipAsFileset unusedCodecs serverLimits none dupZipBytes).2.map
          (fun r => (r.manifest.files, r.manifest.warnings)) =
        .ok ([⟨"dup.txt",
            "d4735e3a265e16eee03f59718b9b5d03019c07d8b6c51f90da3a666eec13ab35", 1⟩],
          ["Duplicate path: dup.txt (last wins)"]) := by
  refine ⟨?_, ?_, ?_, by decide⟩
  · intro l
    obtain ⟨_, h2, _, _, _⟩ := finalizeFold_spec l finalizeInit rfl
    show (l.foldl (fun st pr => addFinalEntry st pr.1 pr.2) finalizeInit).finalEntries.map
        FileEntry.path = _
    rw [h2]
    show (l.foldl (fun es pr => upsertEntry es ⟨pr.1, pr.2.sha256, pr.2.size⟩) []).map
        FileEntry.path = _
    rw [foldl_upsert_map_path l []]
    show seenFold [] (l.map Prod.fst) = _
    rw [seenFold_eq_nubFirst]
    rw [List.filter_congr (fun q _ => by simp : ∀ q ∈ l.map Prod.fst,
      (decide (¬ q ∈ ([] : List String))) = true)]
    simp [List.filter_true]
  · intro l p
    obtain ⟨_, h2, _, _, _⟩ := finalizeFold_spec l finalizeInit rfl
    show lookupEntry
        (l.foldl (fun st pr => addFinalEntry st pr.1 pr.2) finalizeInit).finalEntries p = _
    rw [h2]
    show lookupEntry
        (l.foldl (fun es pr => upsertEntry es ⟨pr.1, pr.2.sha256, pr.2.size⟩) []) p = _
    rw [lookupEntry_foldl_upsert l [] p]
    cases l.reverse.find? (fun pr => pr.1 == p) <;> rfl
  · intro l p
    obtain ⟨_, _, h3, _, _⟩ := finalizeFold_spec l finalizeInit rfl
    show (l.foldl (fun st pr => addFinalEntry st pr.1 pr.2) finalizeInit).warnings.count
        (dupMsg p) = _
    rw [h3]
    show ([] ++ warnAux [] l).count (dupMsg p) = _
    rw [List.nil_append, count_warnAux l [] p]
    simp

set_option maxRecDepth 10000 in
set_option maxHeartbeats 2000000 in
/-- Claim C1, counterexample — an ingest of `caseZipBytes` (entries named
`B` and `a`) stores a manifest whose files list is `["a", "B"]`, but
`"B" < "a"` in code-point order (`0x42 < 0x61`), so the adjacent pair
violates strict code-point ascending order: the sort comparator is
`localeCompare`, not code-point comparison. -/
theorem manifest_not_codepoint_sorted :
    (uploadZipAsFileset unusedCodecs serverLimits none caseZipBytes).2.map
        (fun r => r.manifest.files.map FileEntry.path) = .ok ["a", "B"] ∧
      codePointLt "a" "B" = false ∧ codePointLt "B" "a" = true :=
  ⟨by decide, by decide, by decide⟩

/-- Claim C1 as amended — the manifest's files list has no duplicate
paths and is sorted ascending by the `localeCompare` collation (modelled
by `entryLe`); under the default locale this differs from code-point
order, so code-point sortedness does not hold (see
the counterexample theorem's `["a", "B"]`). -/
theorem manifest_sorted_by_locale :
    ∀ l : List (String × StreamResult),
      List.Sorted entryLe (sortFinalEntries (finalizeFold l).finalEntries) ∧
        ((sortFinalEntries (finalizeFold l).finalEntries).map FileEntry.path).Nodup := by
  intro l
  constructor
  · exact List.sorted_insertionSort entryLe _
  · have hperm : (sortFinalEntries (finalizeFold l).finalEntries).Perm
        (finalizeFold l).finalEntries := List.perm_insertionSort entryLe _
    have hperm2 := hperm.map FileEntry.path
    rw [hperm2.nodup_iff]
    obtain ⟨_, h2, _, _, _⟩ := finalizeFold_spec l finalizeInit rfl
    show ((l.foldl (fun st pr => addFinalEntry st pr.1 pr.2)
        finalizeInit).finalEntries.map FileEntry.path).Nodup
    rw [h2]
    show ((l.foldl (fun es pr => upsertEntry es ⟨pr.1, pr.2.sha256, pr.2.size⟩) []).map
        FileEntry.path).Nodup
    rw [foldl_upsert_map_path l []]
    show (seenFold [] (l.map Prod.fst)).Nodup
    rw [seenFold_eq_nubFirst]
    rw [List.filter_congr (fun q _ => by simp : ∀ q ∈ l.map Prod.fst,
      (decide (¬ q ∈ ([] : List String))) = true)]
    rw [List.nil_append, List.filter_true]
    exact nubFirst_nodup (l.map Prod.fst).length _ (Nat.le_refl _)

/-! ## Atomicity of the ingest (claim C4) -/

theorem all_commit_append (effs : List Eff) (sha : String)
    (h : effs.all effIsCommit = true) :
    (effs ++ [Eff.commitObject sha]).all effIsCommit = true := by
  rw [List.all_append]
  simp [h, effIsCommit]

theorem streamEntry_effs (ext : ExternalCodecs) (limits : UploadLimits)
    (data : List Nat) (st : StreamPhase) (hdr : ZipEntryHeader) (pos1 : Nat)
    (h : st.effs.all effIsCommit = true) :
    (effsOfStream (streamEntry ext limits data st hdr pos1)).all effIsCommit = true := by
  unfold streamEntry
  dsimp only
  repeat' split
  all_goals first
    | exact h
    | exact all_commit_append st.effs _ h

theorem streamLoop_effs (ext : ExternalCodecs) (limits : UploadLimits)
    (data : List Nat) :
    ∀ (fuel : Nat) (st : StreamPhase), st.effs.all effIsCommit = true →
      (effsOfStream (streamLoop ext limits data fuel st)).all effIsCommit = true := by
  intro fuel
  induction fuel with
  | zero => intro st h; exact h
  | succ fuel ih =>
      intro st h
      unfold streamLoop
      split
      · exact h
      · exact h
      · rename_i hdr pos1 hnext
        have hse := streamEntry_effs ext limits data st hdr pos1 h
        cases hres : streamEntry ext limits data st hdr pos1 with
        | error err =>
            rw [hres] at hse
            simp only [hres]
            exact hse
        | ok st' =>
            rw [hres] at hse
            simp only [hres]
            exact ih st' hse

theorem addFinalEntry_effs (st : ReconState) (p : String) (r : StreamResult) :
    (addFinalEntry st p r).effs = st.effs := by
  unfold addFinalEntry
  split <;> rfl

theorem reconEntry_effs (ext : ExternalCodecs) (limits : UploadLimits)
    (data : List Nat) (st : ReconState) (e : CentralEntry)
    (h : st.effs.all effIsCommit = true) :
    (effsOfRecon (reconEntry ext limits data st e)).all effIsCommit = true := by
  unfold reconEntry
  dsimp only
  repeat' split
  all_goals simp only [effsOfRecon]
  all_goals first
    | exact h
    | (rw [addFinalEntry_effs]
       first
         | exact h
         | exact all_commit_append st.effs _ h)
    | exact all_commit_append st.effs _ h

theorem reconLoop_effs (ext : ExternalCodecs) (limits : UploadLimits)
    (data : List Nat) :
    ∀ (entries : List CentralEntry) (st : ReconState),
      st.effs.all effIsCommit = true →
      (effsOfRecon (reconLoop ext limits data entries st)).all effIsCommit = true := by
  intro entries
  induction entries with
  | nil => intro st h; exact h
  | cons e rest ih =>
      intro st h
      unfold reconLoop
      have hre := reconEntry_effs ext limits data st e h
      cases hres : reconEntry ext limits data st e with
      | error err =>
          rw [hres] at hre
          simp only [hres]
          exact hre
      | ok st' =>
          rw [hres] at hre
          simp only [hres]
          exact ih st' hre

theorem refAfterManifestAux_commits (l : List Eff) :
    ∀ (b : Bool) (rest : List Eff), l.all effIsCommit = true →
      refAfterManifestAux b (l ++ rest) = refAfterManifestAux b rest := by
  induction l with
  | nil => intro b rest _; rfl
  | cons e es ih =>
      intro b rest h
      rw [List.all_cons] at h
      obtain ⟨h1, h2⟩ := Bool.and_eq_true_iff.mp h
      cases e with
      | commitObject sha =>
          simp only [List.cons_append, refAfterManifestAux]
          exact ih b rest h2
      | storeManifest f m => cases h1
      | writeRef n f => cases h1

theorem all_commit_refAfterManifest (l : List Eff) :
    ∀ b : Bool, l.all effIsCommit = true → refAfterManifestAux b l = true := by
  induction l with
  | nil => intro b _; rfl
  | cons e es ih =>
      intro b h
      rw [List.all_cons] at h
      obtain ⟨h1, h2⟩ := Bool.and_eq_true_iff.mp h
      cases e with
      | commitObject sha => exact ih b h2
      | storeManifest f m => cases h1
      | writeRef n f => cases h1

/-- Claim C4 — atomicity: if an ingest fails, its effect trace holds only
object commits (no manifest store, no ref write); and in every trace each
`writeRef` is preceded by a `storeManifest` (the ref is written only
after the manifest). -/
theorem ingest_atomic_ref_after_manifest :
    ∀ (ext : ExternalCodecs) (limits : UploadLimits) (updateRef : Option String)
      (data : List Nat),
      (∀ e : String, (uploadZipAsFileset ext limits updateRef data).2 = .error e →
        (uploadZipAsFileset ext limits updateRef data).1.all effIsCommit = true) ∧
      refAfterManifest ((uploadZipAsFileset ext limits updateRef data).1) = true := by
  intro ext limits updateRef data
  unfold uploadZipAsFileset refAfterManifest
  split
  · exact ⟨fun e _ => rfl, rfl⟩
  · rename_i hcap
    have hstream := streamLoop_effs ext limits data (data.length + 1)
      ⟨0, 0, 0, [], [], []⟩ rfl
    cases hs : streamLoop ext limits data (data.length + 1) ⟨0, 0, 0, [], [], []⟩ with
    | error err =>
        rw [hs] at hstream
        obtain ⟨st, e⟩ := err
        dsimp only
        exact ⟨fun _ _ => hstream, all_commit_refAfterManifest _ _ hstream⟩
    | ok st =>
        rw [hs] at hstream
        dsimp only
        cases hcd : readCentralDirectory ext data with
        | error e =>
            dsimp only
            exact ⟨fun _ _ => hstream, all_commit_refAfterManifest _ _ hstream⟩
        | ok cd =>
            obtain ⟨entries, cdWarnings⟩ := cd
            dsimp only
            have hrecon := reconLoop_effs ext limits data entries
              ⟨st.processed, [], [], st.warnings ++ cdWarnings, st.effs⟩ hstream
            cases hr : reconLoop ext limits data entries
                ⟨st.processed, [], [], st.warnings ++ cdWarnings, st.effs⟩ with
            | error err =>
                rw [hr] at hrecon
                obtain ⟨rst, e⟩ := err
                dsimp only
                exact ⟨fun _ _ => hrecon, all_commit_refAfterManifest _ _ hrecon⟩
            | ok rst =>
                rw [hr] at hrecon
                dsimp only
                constructor
                · intro e he
                  cases he
                · rw [List.append_assoc,
                    refAfterManifestAux_commits rst.effs false _ hrecon]
                  cases updateRef <;> rfl

/-- Witness for `ingest_atomic_ref_after_manifest`: the empty body fails
(`'Unexpected EOF'` before any effect), with an all-commit (empty) trace
and a trivially ref-after-manifest trace. -/
theorem ingest_atomic_witness :
    (uploadZipAsFileset unusedCodecs serverLimits none []).1.all effIsCommit = true ∧
      refAfterManifest ((uploadZipAsFileset unusedCodecs serverLimits none []).1) = true :=
  ⟨(ingest_atomic_ref_after_manifest unusedCodecs serverLimits none []).1
      "Unexpected EOF" (by decide),
    (ingest_atomic_ref_after_manifest unusedCodecs serverLimits none []).2⟩

end WebnativeCas
